import Mathlib

/-!
# CHIP-8 interpreter: a shallow embedding of `chip8.cpp`

The class `Chip8` of `src/chip8.h` becomes a structure, its member functions become
functions on that structure.

Conventions of the embedding.

* A `std::array<T, N>` is a total function `Nat → Nat` of which only the indices below `N`
  are cells of the array.  Every subscript whose index is computed from run-time data goes
  through `rd` / `wr`, which return `none` when the index is outside the array (the C++
  behaviour is undefined there).  A member function that subscripts this way therefore
  returns an `Option`.
* `uint8_t` and `uint16_t` values are natural numbers; wherever the C++ code converts the
  result of `int` arithmetic back to an unsigned type, the embedding reduces modulo `2^8` or
  `2^16` explicitly (`u8`, `u16` for differences that may be negative).
* A `switch` is a chain of equality tests on the scrutinee, in the order of its `case`s.
* `std::rand()` is an input of `emulateCycle`; the file read by `loadApplication` is
  described by a `HostFile`; the calls `updateTimers` makes on the `audio` object are
  returned as a list, in the order they are made.
-/

/-- The data members of `class Chip8` (chip8.h). -/
structure Chip8 where
  /-- Display buffer of 2048 pixels. -/
  gfx : Nat → Nat
  drawFlag : Bool
  /-- Hex keypad state, 16 cells. -/
  keypad : Nat → Nat
  pc : Nat
  opcode : Nat
  I : Nat
  sp : Nat
  /-- Registers V0..VF, 16 cells. -/
  V : Nat → Nat
  /-- Call stack, 16 cells. -/
  stack : Nat → Nat
  /-- Memory, 4096 cells. -/
  memory : Nat → Nat
  delay_timer : Nat
  sound_timer : Nat
  isBeeping : Bool

/-- What the host file system answers to `loadApplication`. -/
structure HostFile where
  /-- Value of `file.is_open()` after the stream is constructed. -/
  is_open : Bool
  /-- Content of the file; `tellg()` at the end of the file is its length. -/
  bytes : List Nat
  /-- Number of bytes `file.read` is able to deliver; `file.fail()` holds afterwards when
  this is less than the number requested. -/
  delivered : Nat

namespace Chip8

def SCREEN_W : Nat := 64
def SCREEN_H : Nat := 32

/-- The table `fontset[80]`. -/
def fontset : List Nat :=
  [0xF0, 0x90, 0x90, 0x90, 0xF0,
   0x20, 0x60, 0x20, 0x20, 0x70,
   0xF0, 0x10, 0xF0, 0x80, 0xF0,
   0xF0, 0x10, 0xF0, 0x10, 0xF0,
   0x90, 0x90, 0xF0, 0x10, 0x10,
   0xF0, 0x80, 0xF0, 0x10, 0xF0,
   0xF0, 0x80, 0xF0, 0x90, 0xF0,
   0xF0, 0x10, 0x20, 0x40, 0x40,
   0xF0, 0x90, 0xF0, 0x90, 0xF0,
   0xF0, 0x90, 0xF0, 0x10, 0xF0,
   0xF0, 0x90, 0xF0, 0x90, 0x90,
   0xE0, 0x90, 0xE0, 0x90, 0xE0,
   0xF0, 0x80, 0x80, 0x80, 0xF0,
   0xE0, 0x90, 0x90, 0x90, 0xE0,
   0xF0, 0x80, 0xF0, 0x80, 0xF0,
   0xF0, 0x80, 0xF0, 0x80, 0x80]

/-- Conversion of an `int` to `uint8_t`. -/
def u8 (z : Int) : Nat := (z % 256).toNat

/-- Conversion of an `int` to `uint16_t`. -/
def u16 (z : Int) : Nat := (z % 65536).toNat

/-- Subscript read `a[i]` on an array of `size` cells. -/
def rd (size : Nat) (a : Nat → Nat) (i : Nat) : Option Nat :=
  if i < size then some (a i) else none

/-- Array `a` with cell `i` replaced by `v`. -/
def setCell (a : Nat → Nat) (i v : Nat) : Nat → Nat :=
  fun j => if j = i then v else a j

/-- Subscript write `a[i] = v` on an array of `size` cells. -/
def wr (size : Nat) (a : Nat → Nat) (i v : Nat) : Option (Nat → Nat) :=
  if i < size then some (setCell a i v) else none

/-- The loop `for (int i = lo; i < lo + n; ++i) body`, stopping at the first fault. -/
def forLoop {σ : Type} (body : Nat → σ → Option σ) : Nat → Nat → σ → Option σ
  | _, 0, s => some s
  | lo, n + 1, s => (body lo s).bind (forLoop body (lo + 1) n)

/-- Member function `Chip8::init`. -/
def init (s : Chip8) : Chip8 :=
  { s with
    pc := 0x200
    opcode := 0
    I := 0
    sp := 0
    gfx := fun _ => 0
    V := fun _ => 0
    stack := fun _ => 0
    keypad := fun _ => 0
    memory := (List.range 80).foldl (fun m i => setCell m (0x050 + i) (fontset.getD i 0))
                (fun _ => 0)
    delay_timer := 0
    sound_timer := 0
    drawFlag := true }

/-- Effect of `file.read(ptr, count)` with `ptr` pointing at `memory[dst]`: the bytes the
stream delivers, at most `count`, are stored from `dst` on, in file order. -/
def fileRead (memory : Nat → Nat) (dst : Nat) (file : HostFile) (count : Nat) : Nat → Nat :=
  fun j =>
    if dst ≤ j ∧ j < dst + min file.delivered count then file.bytes.getD (j - dst) 0
    else memory j

/-- Member function `Chip8::loadApplication`; the returned flag is the C++ return value. -/
def loadApplication (s : Chip8) (file : HostFile) : Bool × Chip8 :=
  let s := init s
  if !file.is_open then (false, s)
  else
    let romSize := file.bytes.length
    let MAX_ROM_SIZE := 4096 - 0x200
    if romSize ≤ 0 ∨ romSize > MAX_ROM_SIZE then (false, s)
    else
      let s := { s with memory := fileRead s.memory 0x200 file romSize }
      if file.delivered < romSize then (false, s)
      else (true, s)

/-- The fetch `opcode = (memory[pc] << 8) | memory[pc + 1]`. -/
def fetch (s : Chip8) : Option Nat := do
  let hi ← rd 4096 s.memory s.pc
  let lo ← rd 4096 s.memory (s.pc + 1)
  some (((hi <<< 8) ||| lo) % 65536)

/-- Local `nnn = opcode & 0x0FFF`. -/
def nnnOf (opcode : Nat) : Nat := opcode &&& 0x0FFF

/-- Local `regX = (opcode & 0x0F00) >> 8`. -/
def regXOf (opcode : Nat) : Nat := ((opcode &&& 0x0F00) >>> 8) % 256

/-- Local `regY = (opcode & 0x00F0) >> 4`. -/
def regYOf (opcode : Nat) : Nat := ((opcode &&& 0x00F0) >>> 4) % 256

/-- Local `val = opcode & 0x00FF`. -/
def valOf (opcode : Nat) : Nat := (opcode &&& 0x00FF) % 256

/-- Opcode 00E0, CLS. -/
def op_00E0 (s : Chip8) : Option Chip8 :=
  some { s with gfx := fun _ => 0, drawFlag := true }

/-- Opcode 00EE, RET: pre-decrement of `sp`, then `pc = stack[sp]`. -/
def op_00EE (s : Chip8) : Option Chip8 := do
  let sp := u8 ((s.sp : Int) - 1)
  let pc ← rd 16 s.stack sp
  some { s with sp := sp, pc := pc }

/-- Opcode 1NNN, JP. -/
def op_1NNN (s : Chip8) (nnn : Nat) : Option Chip8 :=
  some { s with pc := nnn }

/-- Opcode 2NNN, CALL: `stack[sp] = pc; sp++; pc = nnn;`. -/
def op_2NNN (s : Chip8) (nnn : Nat) : Option Chip8 := do
  let stack ← wr 16 s.stack s.sp s.pc
  some { s with stack := stack, sp := (s.sp + 1) % 256, pc := nnn }

/-- Opcode 3XKK. -/
def op_3XKK (s : Chip8) (regX val : Nat) : Option Chip8 := do
  let vx ← rd 16 s.V regX
  if vx = val then some { s with pc := (s.pc + 2) % 65536 } else some s

/-- Opcode 4XKK. -/
def op_4XKK (s : Chip8) (regX val : Nat) : Option Chip8 := do
  let vx ← rd 16 s.V regX
  if vx ≠ val then some { s with pc := (s.pc + 2) % 65536 } else some s

/-- Opcode 5XY0 (the whole `case 0x5000`). -/
def op_5XY0 (s : Chip8) (regX regY : Nat) : Option Chip8 := do
  let vx ← rd 16 s.V regX
  let vy ← rd 16 s.V regY
  if vx = vy then some { s with pc := (s.pc + 2) % 65536 } else some s

/-- Opcode 6XKK. -/
def op_6XKK (s : Chip8) (regX val : Nat) : Option Chip8 := do
  let V ← wr 16 s.V regX val
  some { s with V := V }

/-- Opcode 7XKK: `V[regX] += val`. -/
def op_7XKK (s : Chip8) (regX val : Nat) : Option Chip8 := do
  let vx ← rd 16 s.V regX
  let V ← wr 16 s.V regX ((vx + val) % 256)
  some { s with V := V }

/-- Opcode 8XY0. -/
def op_8XY0 (s : Chip8) (regX regY : Nat) : Option Chip8 := do
  let vy ← rd 16 s.V regY
  let V ← wr 16 s.V regX vy
  some { s with V := V }

/-- Opcode 8XY1: `V[regX] |= V[regY]`. -/
def op_8XY1 (s : Chip8) (regX regY : Nat) : Option Chip8 := do
  let vx ← rd 16 s.V regX
  let vy ← rd 16 s.V regY
  let V ← wr 16 s.V regX ((vx ||| vy) % 256)
  some { s with V := V }

/-- Opcode 8XY2: `V[regX] &= V[regY]`. -/
def op_8XY2 (s : Chip8) (regX regY : Nat) : Option Chip8 := do
  let vx ← rd 16 s.V regX
  let vy ← rd 16 s.V regY
  let V ← wr 16 s.V regX ((vx &&& vy) % 256)
  some { s with V := V }

/-- Opcode 8XY3: `V[regX] ^= V[regY]`. -/
def op_8XY3 (s : Chip8) (regX regY : Nat) : Option Chip8 := do
  let vx ← rd 16 s.V regX
  let vy ← rd 16 s.V regY
  let V ← wr 16 s.V regX ((vx ^^^ vy) % 256)
  some { s with V := V }

/-- Opcode 8XY4: `uint16_t sum = V[regX] + V[regY]; V[0xF] = (sum > 0xFF) ? 1 : 0;
V[regX] = sum & 0xFF;`. -/
def op_8XY4 (s : Chip8) (regX regY : Nat) : Option Chip8 := do
  let vx ← rd 16 s.V regX
  let vy ← rd 16 s.V regY
  let sum := (vx + vy) % 65536
  let V ← wr 16 s.V 0xF (if sum > 0xFF then 1 else 0)
  let V ← wr 16 V regX ((sum &&& 0xFF) % 256)
  some { s with V := V }

/-- Opcode 8XY5: `V[0xF] = (V[regX] > V[regY]) ? 1 : 0; V[regX] = V[regX] - V[regY];`.
The second statement reads the registers again, after the flag has been stored. -/
def op_8XY5 (s : Chip8) (regX regY : Nat) : Option Chip8 := do
  let vx ← rd 16 s.V regX
  let vy ← rd 16 s.V regY
  let V ← wr 16 s.V 0xF (if vx > vy then 1 else 0)
  let vx ← rd 16 V regX
  let vy ← rd 16 V regY
  let V ← wr 16 V regX (u8 ((vx : Int) - vy))
  some { s with V := V }

/-- Opcode 8XY6: `V[0xF] = V[regX] & 0x1; V[regX] >>= 1;`. -/
def op_8XY6 (s : Chip8) (regX : Nat) : Option Chip8 := do
  let vx ← rd 16 s.V regX
  let V ← wr 16 s.V 0xF ((vx &&& 0x1) % 256)
  let vx ← rd 16 V regX
  let V ← wr 16 V regX ((vx >>> 1) % 256)
  some { s with V := V }

/-- Opcode 8XY7: `V[0xF] = (V[regY] > V[regX]) ? 1 : 0; V[regX] = V[regY] - V[regX];`. -/
def op_8XY7 (s : Chip8) (regX regY : Nat) : Option Chip8 := do
  let vx ← rd 16 s.V regX
  let vy ← rd 16 s.V regY
  let V ← wr 16 s.V 0xF (if vy > vx then 1 else 0)
  let vy ← rd 16 V regY
  let vx ← rd 16 V regX
  let V ← wr 16 V regX (u8 ((vy : Int) - vx))
  some { s with V := V }

/-- Opcode 8XYE: `V[0xF] = V[regX] >> 7; V[regX] <<= 1;`. -/
def op_8XYE (s : Chip8) (regX : Nat) : Option Chip8 := do
  let vx ← rd 16 s.V regX
  let V ← wr 16 s.V 0xF ((vx >>> 7) % 256)
  let vx ← rd 16 V regX
  let V ← wr 16 V regX ((vx <<< 1) % 256)
  some { s with V := V }

/-- The `case 0x8000` family: `switch (opcode & 0x000F)`. -/
def op_8XYN (s : Chip8) (regX regY : Nat) : Option Chip8 :=
  let n := s.opcode &&& 0x000F
  if n = 0x0 then op_8XY0 s regX regY
  else if n = 0x1 then op_8XY1 s regX regY
  else if n = 0x2 then op_8XY2 s regX regY
  else if n = 0x3 then op_8XY3 s regX regY
  else if n = 0x4 then op_8XY4 s regX regY
  else if n = 0x5 then op_8XY5 s regX regY
  else if n = 0x6 then op_8XY6 s regX
  else if n = 0x7 then op_8XY7 s regX regY
  else if n = 0xE then op_8XYE s regX
  else some s

/-- Opcode 9XY0 (the whole `case 0x9000`). -/
def op_9XY0 (s : Chip8) (regX regY : Nat) : Option Chip8 := do
  let vx ← rd 16 s.V regX
  let vy ← rd 16 s.V regY
  if vx ≠ vy then some { s with pc := (s.pc + 2) % 65536 } else some s

/-- Opcode ANNN. -/
def op_ANNN (s : Chip8) (nnn : Nat) : Option Chip8 :=
  some { s with I := nnn }

/-- Opcode BNNN: `pc = nnn + V[0]`. -/
def op_BNNN (s : Chip8) (nnn : Nat) : Option Chip8 := do
  let v0 ← rd 16 s.V 0
  some { s with pc := (nnn + v0) % 65536 }

/-- Opcode CXKK: `V[regX] = (std::rand() & 0xFF) & val`, with `rnd` the value of
`std::rand()`. -/
def op_CXKK (s : Chip8) (regX val rnd : Nat) : Option Chip8 := do
  let V ← wr 16 s.V regX (((rnd &&& 0xFF) &&& val) % 256)
  some { s with V := V }

/-- Body of the inner loop of DXYN for one column of one sprite row. -/
def drawPixel (xStart yStart row sprite : Nat) (col : Nat) (s : Chip8) : Option Chip8 :=
  if sprite &&& (0x80 >>> col) ≠ 0 then do
    let x := (xStart + col) % SCREEN_W
    let y := (yStart + row) % SCREEN_H
    let idx := y * SCREEN_W + x
    let g ← rd 2048 s.gfx idx
    let V ← if g = 1 then wr 16 s.V 0xF 1 else some s.V
    let g ← rd 2048 s.gfx idx
    let gfx ← wr 2048 s.gfx idx ((g ^^^ 1) % 256)
    some { s with V := V, gfx := gfx }
  else some s

/-- Body of the outer loop of DXYN for one sprite row. -/
def drawRow (xStart yStart : Nat) (row : Nat) (s : Chip8) : Option Chip8 := do
  let sprite ← rd 4096 s.memory (s.I + row)
  forLoop (drawPixel xStart yStart row sprite) 0 8 s

/-- Opcode DXYN, DRW. -/
def op_DXYN (s : Chip8) (regX regY : Nat) : Option Chip8 := do
  let xStart ← rd 16 s.V regX
  let yStart ← rd 16 s.V regY
  let height := s.opcode &&& 0x000F
  let V ← wr 16 s.V 0xF 0
  let s ← forLoop (drawRow xStart yStart) 0 height { s with V := V }
  some { s with drawFlag := true }

/-- Opcode EX9E. -/
def op_EX9E (s : Chip8) (regX : Nat) : Option Chip8 := do
  let vx ← rd 16 s.V regX
  let k ← rd 16 s.keypad vx
  if k ≠ 0 then some { s with pc := (s.pc + 2) % 65536 } else some s

/-- Opcode EXA1. -/
def op_EXA1 (s : Chip8) (regX : Nat) : Option Chip8 := do
  let vx ← rd 16 s.V regX
  let k ← rd 16 s.keypad vx
  if k = 0 then some { s with pc := (s.pc + 2) % 65536 } else some s

/-- Opcode FX07. -/
def op_FX07 (s : Chip8) (regX : Nat) : Option Chip8 := do
  let V ← wr 16 s.V regX s.delay_timer
  some { s with V := V }

/-- Body of the key scan of FX0A; the flag is `key_pressed`. -/
def scanKey (regX : Nat) (i : Nat) (st : Chip8 × Bool) : Option (Chip8 × Bool) := do
  let k ← rd 16 st.1.keypad i
  if k ≠ 0 then
    let V ← wr 16 st.1.V regX (i % 256)
    some ({ st.1 with V := V }, true)
  else some st

/-- Opcode FX0A. -/
def op_FX0A (s : Chip8) (regX : Nat) : Option Chip8 := do
  let st ← forLoop (scanKey regX) 0 16 (s, false)
  if !st.2 then some { st.1 with pc := u16 ((st.1.pc : Int) - 2) } else some st.1

/-- Opcode FX15. -/
def op_FX15 (s : Chip8) (regX : Nat) : Option Chip8 := do
  let vx ← rd 16 s.V regX
  some { s with delay_timer := vx }

/-- Opcode FX18. -/
def op_FX18 (s : Chip8) (regX : Nat) : Option Chip8 := do
  let vx ← rd 16 s.V regX
  some { s with sound_timer := vx }

/-- Opcode FX1E: `I += V[regX]`. -/
def op_FX1E (s : Chip8) (regX : Nat) : Option Chip8 := do
  let vx ← rd 16 s.V regX
  some { s with I := (s.I + vx) % 65536 }

/-- Opcode FX29: `I = 0x50 + (V[regX] * 5)`. -/
def op_FX29 (s : Chip8) (regX : Nat) : Option Chip8 := do
  let vx ← rd 16 s.V regX
  some { s with I := (0x50 + vx * 5) % 65536 }

/-- Opcode FX33. -/
def op_FX33 (s : Chip8) (regX : Nat) : Option Chip8 := do
  let vx ← rd 16 s.V regX
  let m ← wr 4096 s.memory s.I ((vx / 100) % 256)
  let vx ← rd 16 s.V regX
  let m ← wr 4096 m (s.I + 1) (((vx / 10) % 10) % 256)
  let vx ← rd 16 s.V regX
  let m ← wr 4096 m (s.I + 2) ((vx % 10) % 256)
  some { s with memory := m }

/-- Body of the loop of FX55: `memory[I + i] = V[i]`. -/
def storeReg (i : Nat) (s : Chip8) : Option Chip8 := do
  let v ← rd 16 s.V i
  let m ← wr 4096 s.memory (s.I + i) v
  some { s with memory := m }

/-- Opcode FX55: `for (int i = 0; i <= regX; ++i)`. -/
def op_FX55 (s : Chip8) (regX : Nat) : Option Chip8 :=
  forLoop storeReg 0 (regX + 1) s

/-- Body of the loop of FX65: `V[i] = memory[I + i]`. -/
def loadReg (i : Nat) (s : Chip8) : Option Chip8 := do
  let b ← rd 4096 s.memory (s.I + i)
  let V ← wr 16 s.V i b
  some { s with V := V }

/-- Opcode FX65: `for (int i = 0; i <= regX; ++i)`. -/
def op_FX65 (s : Chip8) (regX : Nat) : Option Chip8 :=
  forLoop loadReg 0 (regX + 1) s

/-- Decode and execute, for a state whose `opcode` holds the fetched word and whose `pc`
has already been advanced. -/
def execute (s : Chip8) (rnd : Nat) : Option Chip8 :=
  let nnn := nnnOf s.opcode
  let regX := regXOf s.opcode
  let regY := regYOf s.opcode
  let val := valOf s.opcode
  let top := s.opcode &&& 0xF000
  if top = 0x000 then
    let low := s.opcode &&& 0x0FF
    if low = 0x00E0 then op_00E0 s
    else if low = 0x00EE then op_00EE s
    else some s
  else if top = 0x1000 then op_1NNN s nnn
  else if top = 0x2000 then op_2NNN s nnn
  else if top = 0x3000 then op_3XKK s regX val
  else if top = 0x4000 then op_4XKK s regX val
  else if top = 0x5000 then op_5XY0 s regX regY
  else if top = 0x6000 then op_6XKK s regX val
  else if top = 0x7000 then op_7XKK s regX val
  else if top = 0x8000 then op_8XYN s regX regY
  else if top = 0x9000 then op_9XY0 s regX regY
  else if top = 0xA000 then op_ANNN s nnn
  else if top = 0xB000 then op_BNNN s nnn
  else if top = 0xC000 then op_CXKK s regX val rnd
  else if top = 0xD000 then op_DXYN s regX regY
  else if top = 0xE000 then
    if val = 0x9E then op_EX9E s regX
    else if val = 0xA1 then op_EXA1 s regX
    else some s
  else if top = 0xF000 then
    if val = 0x07 then op_FX07 s regX
    else if val = 0x0A then op_FX0A s regX
    else if val = 0x15 then op_FX15 s regX
    else if val = 0x18 then op_FX18 s regX
    else if val = 0x1E then op_FX1E s regX
    else if val = 0x29 then op_FX29 s regX
    else if val = 0x33 then op_FX33 s regX
    else if val = 0x55 then op_FX55 s regX
    else if val = 0x65 then op_FX65 s regX
    else some s
  else some s

/-- Member function `Chip8::emulateCycle`; `rnd` is what `std::rand()` returns if the cycle
calls it. -/
def emulateCycle (s : Chip8) (rnd : Nat) : Option Chip8 := do
  let opcode ← fetch s
  execute { s with opcode := opcode, pc := (s.pc + 2) % 65536 } rnd

/-- A call made on the `audio` object. -/
inductive AudioCmd where
  | start
  | stop
  deriving DecidableEq

/-- Member function `Chip8::startBeep`, which calls `audio.StartBeep()`: the call is appended
to the log of calls made so far. -/
def startBeep (st : Chip8 × List AudioCmd) : Chip8 × List AudioCmd :=
  (st.1, st.2 ++ [AudioCmd.start])

/-- Member function `Chip8::stopBeep`, which calls `audio.StopBeep()`. -/
def stopBeep (st : Chip8 × List AudioCmd) : Chip8 × List AudioCmd :=
  (st.1, st.2 ++ [AudioCmd.stop])

/-- Member function `Chip8::updateTimers`; the list holds the calls made on `audio` during
the tick, in order. -/
def updateTimers (s : Chip8) : Chip8 × List AudioCmd :=
  let st : Chip8 × List AudioCmd := (s, [])
  let st :=
    if st.1.isBeeping && st.1.sound_timer == 0 then
      let st := stopBeep st
      ({ st.1 with isBeeping := false }, st.2)
    else st
  let st :=
    if st.1.delay_timer > 0 then
      ({ st.1 with delay_timer := u8 ((st.1.delay_timer : Int) - 1) }, st.2)
    else st
  if st.1.sound_timer > 0 then
    let st :=
      if !st.1.isBeeping then
        let st := startBeep st
        ({ st.1 with isBeeping := true }, st.2)
      else st
    ({ st.1 with sound_timer := u8 ((st.1.sound_timer : Int) - 1) }, st.2)
  else st

/-- The frame loop of `main.cpp` as the timers see it: frame `k` first runs `g k` (its
instruction cycles and input events) and then calls `updateTimers`.  The result is the state
after the given number of frames, with all calls made on `audio`. -/
def ticks (g : Nat → Chip8 → Chip8) : Nat → Chip8 → Chip8 × List AudioCmd
  | 0, s => (s, [])
  | k + 1, s =>
    let st := ticks g k s
    let r := updateTimers (g k st.1)
    (r.1, st.2 ++ r.2)

/-! ## Host keyboard: the key table and the key events of `main.cpp` -/

/-- Key code `SDLK_1` of `SDL_keycode.h`: the character code of the key. -/
def SDLK_1 : Int := 49

/-- Key code `SDLK_2` of `SDL_keycode.h`: the character code of the key. -/
def SDLK_2 : Int := 50

/-- Key code `SDLK_3` of `SDL_keycode.h`: the character code of the key. -/
def SDLK_3 : Int := 51

/-- Key code `SDLK_4` of `SDL_keycode.h`: the character code of the key. -/
def SDLK_4 : Int := 52

/-- Key code `SDLK_q` of `SDL_keycode.h`: the character code of the key. -/
def SDLK_q : Int := 113

/-- Key code `SDLK_w` of `SDL_keycode.h`: the character code of the key. -/
def SDLK_w : Int := 119

/-- Key code `SDLK_e` of `SDL_keycode.h`: the character code of the key. -/
def SDLK_e : Int := 101

/-- Key code `SDLK_r` of `SDL_keycode.h`: the character code of the key. -/
def SDLK_r : Int := 114

/-- Key code `SDLK_a` of `SDL_keycode.h`: the character code of the key. -/
def SDLK_a : Int := 97

/-- Key code `SDLK_s` of `SDL_keycode.h`: the character code of the key. -/
def SDLK_s : Int := 115

/-- Key code `SDLK_d` of `SDL_keycode.h`: the character code of the key. -/
def SDLK_d : Int := 100

/-- Key code `SDLK_f` of `SDL_keycode.h`: the character code of the key. -/
def SDLK_f : Int := 102

/-- Key code `SDLK_z` of `SDL_keycode.h`: the character code of the key. -/
def SDLK_z : Int := 122

/-- Key code `SDLK_x` of `SDL_keycode.h`: the character code of the key. -/
def SDLK_x : Int := 120

/-- Key code `SDLK_c` of `SDL_keycode.h`: the character code of the key. -/
def SDLK_c : Int := 99

/-- Key code `SDLK_v` of `SDL_keycode.h`: the character code of the key. -/
def SDLK_v : Int := 118

/-- Key code `SDLK_ESCAPE` of `SDL_keycode.h`. -/
def SDLK_ESCAPE : Int := 27

/-- Function `mapSDLKeyToChip8` of `main.cpp`. -/
def mapSDLKeyToChip8 (key : Int) : Int :=
  if key = SDLK_1 then 0x1
  else if key = SDLK_2 then 0x2
  else if key = SDLK_3 then 0x3
  else if key = SDLK_4 then 0xC
  else if key = SDLK_q then 0x4
  else if key = SDLK_w then 0x5
  else if key = SDLK_e then 0x6
  else if key = SDLK_r then 0xD
  else if key = SDLK_a then 0x7
  else if key = SDLK_s then 0x8
  else if key = SDLK_d then 0x9
  else if key = SDLK_f then 0xE
  else if key = SDLK_z then 0xA
  else if key = SDLK_x then 0x0
  else if key = SDLK_c then 0xB
  else if key = SDLK_v then 0xF
  else -1

/-- Handling of one `SDL_KEYDOWN` (`down = true`) or `SDL_KEYUP` event for the key `sym` in
the event loop of `main`, as far as the machine state goes: `keypad[key]` is set when the
key is mapped.  The local `quit` of the loop is not part of the state. -/
def keyEvent (s : Chip8) (sym : Int) (down : Bool) : Option Chip8 :=
  let key := mapSDLKeyToChip8 sym
  if key ≥ 0 then do
    let keypad ← wr 16 s.keypad key.toNat (if down then 1 else 0)
    some { s with keypad := keypad }
  else some s

/-! ## Predicates used in the proofs about DXYN -/

/-- The state with the framebuffer and the registers blanked: two states with the same
`frame` differ at most in `gfx` and `V`. -/
def frame (t : Chip8) : Chip8 := { t with gfx := fun _ => 0, V := fun _ => 0 }

/-- State `t` is `t0` after the framebuffer cells in `H` have each been XORed with 1 once,
with `V[0xF]` raised if one of them held 1. -/
def Toggles (H : Nat → Prop) (t0 t : Chip8) : Prop :=
  frame t = frame t0 ∧
  (∀ j, H j → t.gfx j = (t0.gfx j ^^^ 1) % 256) ∧
  (∀ j, ¬ H j → t.gfx j = t0.gfx j) ∧
  (∀ j, j ≠ 0xF → t.V j = t0.V j) ∧
  ((∃ j, H j ∧ t0.gfx j = 1) → t.V 0xF = 1) ∧
  (¬ (∃ j, H j ∧ t0.gfx j = 1) → t.V 0xF = t0.V 0xF)

/-- Framebuffer index of column `c` of row `r` of a sprite drawn at `(xs, ys)`. -/
def cellOf (xs ys r c : Nat) : Nat :=
  ((ys + r) % SCREEN_H) * SCREEN_W + (xs + c) % SCREEN_W

/-- Cell `j` of the framebuffer is the target of a set bit of the `n`-row sprite that DXYN
draws from state `s`. -/
def spriteHit (s : Chip8) (x y n j : Nat) : Prop :=
  ∃ r c, r < n ∧ c < 8 ∧ s.memory (s.I + r) &&& (0x80 >>> c) ≠ 0 ∧
    j = cellOf (s.V x) (s.V y) r c

/-! ## Predicates used in the classification of the instructions -/

/-- The step from `s` to `t` changed neither `memory`, nor `gfx`, nor `pc`. -/
def Plain (s t : Chip8) : Prop := t.memory = s.memory ∧ t.gfx = s.gfx ∧ t.pc = s.pc

/-- The step from `s` to `t` changed neither `memory` nor `gfx` and added 2 to `pc`. -/
def Skipped (s t : Chip8) : Prop :=
  t.memory = s.memory ∧ t.gfx = s.gfx ∧ t.pc = (s.pc + 2) % 65536

/-- Every framebuffer cell holds 0 or 1. -/
def GfxBinary (s : Chip8) : Prop := ∀ i, i < 2048 → s.gfx i = 0 ∨ s.gfx i = 1

/-- The step from `s` to `t` changed neither `memory` nor `gfx`. -/
def Jumped (s t : Chip8) : Prop := t.memory = s.memory ∧ t.gfx = s.gfx

/-- The word `op` is dispatched to a control transfer: 1NNN, 2NNN, BNNN, or the RET arm,
which `case 0x000` selects by the low byte `0xEE`. -/
def IsJump (op : Nat) : Prop :=
  op &&& 0xF000 = 0x1000 ∨ op &&& 0xF000 = 0x2000 ∨ op &&& 0xF000 = 0xB000 ∨
    (op &&& 0xF000 = 0x000 ∧ op &&& 0x0FF = 0x00EE)

/-- The word `op` is a skip instruction whose condition holds in `s`. -/
def TakenSkip (s : Chip8) (op : Nat) : Prop :=
  (op &&& 0xF000 = 0x3000 ∧ s.V (regXOf op) = valOf op) ∨
  (op &&& 0xF000 = 0x4000 ∧ s.V (regXOf op) ≠ valOf op) ∨
  (op &&& 0xF000 = 0x5000 ∧ s.V (regXOf op) = s.V (regYOf op)) ∨
  (op &&& 0xF000 = 0x9000 ∧ s.V (regXOf op) ≠ s.V (regYOf op)) ∨
  (op &&& 0xF000 = 0xE000 ∧ valOf op = 0x9E ∧ s.keypad (s.V (regXOf op)) ≠ 0) ∨
  (op &&& 0xF000 = 0xE000 ∧ valOf op = 0xA1 ∧ s.keypad (s.V (regXOf op)) = 0)

/-- What a completed `execute` from `s` to `t` can have done, by kind of instruction. -/
inductive Effect (s t : Chip8) : Prop where
  | plain (h : Plain s t)
  | cls (hop : s.opcode &&& 0xF000 = 0x000) (hm : t.memory = s.memory) (hp : t.pc = s.pc)
      (hg : ∀ i, t.gfx i = 0)
  | jump (hop : IsJump s.opcode) (h : Jumped s t)
  | skip (h : Skipped s t) (hc : TakenSkip s s.opcode)
  | draw (hop : s.opcode &&& 0xF000 = 0xD000) (hm : t.memory = s.memory) (hp : t.pc = s.pc)
      (hg : GfxBinary s → GfxBinary t)
  | wait (hop : s.opcode &&& 0xF000 = 0xF000) (hv : valOf s.opcode = 0x0A) (h : Jumped s t)
      (hp : t.pc = u16 ((s.pc : Int) - 2)) (hk : ∀ j, j < 16 → s.keypad j = 0)
  | bcd (hop : s.opcode &&& 0xF000 = 0xF000) (hv : valOf s.opcode = 0x33) (hg : t.gfx = s.gfx)
      (hp : t.pc = s.pc) (hm : ∀ a, (a < s.I ∨ s.I + 2 < a) → t.memory a = s.memory a)
  | store (hop : s.opcode &&& 0xF000 = 0xF000) (hv : valOf s.opcode = 0x55)
      (hg : t.gfx = s.gfx) (hp : t.pc = s.pc)
      (hm : ∀ a, (a < s.I ∨ s.I + regXOf s.opcode < a) → t.memory a = s.memory a)

/-- The sixteen host keys named by `mapSDLKeyToChip8`, in the order of its `case`s. -/
def hostKeys : List Int :=
  [SDLK_1, SDLK_2, SDLK_3, SDLK_4, SDLK_q, SDLK_w, SDLK_e, SDLK_r,
   SDLK_a, SDLK_s, SDLK_d, SDLK_f, SDLK_z, SDLK_x, SDLK_c, SDLK_v]

/-- The states the machine can be in: after `init` or `loadApplication`, and from there
after any instruction cycle that completes, any timer tick, any key event and any clearing
of `drawFlag` by the frame loop. -/
inductive Reachable : Chip8 → Prop where
  | reset (s : Chip8) : Reachable (init s)
  | load (s : Chip8) (file : HostFile) : Reachable (loadApplication s file).2
  | cycle {s t : Chip8} (rnd : Nat) (hs : Reachable s) (h : emulateCycle s rnd = some t) :
      Reachable t
  | tick {s : Chip8} (hs : Reachable s) : Reachable (updateTimers s).1
  | key {s t : Chip8} (sym : Int) (down : Bool) (hs : Reachable s)
      (h : keyEvent s sym down = some t) : Reachable t
  | shown {s : Chip8} (hs : Reachable s) : Reachable { s with drawFlag := false }

/-! ## Concrete states used as inputs of the examples -/

/-- A state with every cell and every field zero and `pc` at the program start. -/
def blank : Chip8 :=
  { gfx := fun _ => 0, drawFlag := false, keypad := fun _ => 0, pc := 0x200, opcode := 0,
    I := 0, sp := 0, V := fun _ => 0, stack := fun _ => 0, memory := fun _ => 0,
    delay_timer := 0, sound_timer := 0, isBeeping := false }

/-- The state `blank` with the two bytes `hi lo` stored at `0x200`, `0x201`. -/
def withWord (hi lo : Nat) : Chip8 :=
  { blank with memory := setCell (setCell blank.memory 0x200 hi) 0x201 lo }

/-- State of the call/return scenario: the word `2206` at `0x200` and `00EE` at `0x206`. -/
def callState : Chip8 :=
  { blank with memory := fun j =>
      if j = 0x200 then 0x22 else if j = 0x201 then 0x06 else if j = 0x207 then 0xEE else 0 }

/-- State with `V[0xF] = 5`, `V[0] = 3` and the word `8F04` at `pc`. -/
def addAliasState : Chip8 :=
  { withWord 0x8F 0x04 with V := setCell (setCell blank.V 0xF 5) 0 3 }

/-- State with `V[0] = 5`, `V[0xF] = 3` and the word `80F5` at `pc`. -/
def subAliasState : Chip8 :=
  { withWord 0x80 0xF5 with V := setCell (setCell blank.V 0 5) 0xF 3 }

/-- State of the BCD scenario: `V[5] = 234`, `I = 0x300`, word `F533` at `pc`. -/
def bcdState : Chip8 := { withWord 0xF5 0x33 with V := setCell blank.V 5 234, I := 0x300 }

/-- State with `V[0..2] = 7, 8, 9`, `I = 0x300` and the word `F255` at `pc`. -/
def storeState : Chip8 :=
  { withWord 0xF2 0x55 with V := fun j => if j < 3 then 7 + j else 0, I := 0x300 }

/-- State of the draw scenario: `V[0] = 63`, `V[1] = 31`, `I = 0x300`
pointing at the byte `0x80`, word `D011` at `pc`, blank screen. -/
def drawState : Chip8 :=
  { blank with
    memory := fun j => if j = 0x200 then 0xD0 else if j = 0x201 then 0x11
                else if j = 0x300 then 0x80 else 0
    V := fun j => if j = 0 then 63 else if j = 1 then 31 else 0
    I := 0x300 }

/-- The state `drawState` with the pixel at `(63, 31)` already lit. -/
def drawStateLit : Chip8 := { drawState with gfx := fun j => if j = 2047 then 1 else 0 }

/-- State with `I = 0x300`, the bytes 7, 8, 9 at `0x300..0x302`, all registers zero and the
word `F265` at `pc`. -/
def loadState : Chip8 :=
  { blank with
    memory := fun j => if j = 0x200 then 0xF2 else if j = 0x201 then 0x65
                else if j = 0x300 then 7 else if j = 0x301 then 8
                else if j = 0x302 then 9 else 0
    I := 0x300 }

/-- A host file that opens and delivers the two bytes `12 34`. -/
def romFile : HostFile := { is_open := true, bytes := [0x12, 0x34], delivered := 2 }

/-- A host file that opens and is empty. -/
def emptyFile : HostFile := { is_open := true, bytes := [], delivered := 0 }

/-- State with `sound_timer = 2`, `delay_timer = 1`, not beeping. -/
def timerState : Chip8 := { blank with sound_timer := 2, delay_timer := 1 }

/-- State with the word `F00A` at `pc` and the keys 3 and 7 pressed. -/
def keyWaitState : Chip8 :=
  { withWord 0xF0 0x0A with keypad := fun j => if j = 3 ∨ j = 7 then 1 else 0 }

/-- State with `V[0] = 16` and the word `E09E` at `pc`. -/
def keyIndexState : Chip8 := { withWord 0xE0 0x9E with V := setCell blank.V 0 16 }

/-- State with `V[0] = 16` and the word `E0A1` at `pc`. -/
def keyIndexStateA1 : Chip8 := { withWord 0xE0 0xA1 with V := setCell blank.V 0 16 }

/-- State with `V[0] = 0x1A` and the word `F029` at `pc`. -/
def fontIndexState : Chip8 := { withWord 0xF0 0x29 with V := setCell blank.V 0 0x1A }

/-- State with `V[0] = 0xA` and the word `F029` at `pc`. -/
def fontGlyphState : Chip8 := { withWord 0xF0 0x29 with V := setCell blank.V 0 0xA }

/-- State with the word `01E0` at `pc`, the pixel at `(63, 31)` lit and `drawFlag` clear. -/
def sysClsState : Chip8 :=
  { withWord 0x01 0xE0 with gfx := fun j => if j = 2047 then 1 else 0 }

/-- State with the word `0FEE` at `pc`, `sp = 1` and `stack[0] = 0x300`. -/
def sysRetState : Chip8 :=
  { withWord 0x0F 0xEE with sp := 1, stack := setCell blank.stack 0 0x300 }

/-- State with the word `5011` at `pc` and `V[0] = V[1] = 0`. -/
def skipEqState : Chip8 := withWord 0x50 0x11

/-- State with the word `9011` at `pc`, `V[0] = 1` and `V[1] = 0`. -/
def skipNeState : Chip8 := { withWord 0x90 0x11 with V := setCell blank.V 0 1 }

/-- State with `V[1] = 0x81` and the word `8126` at `pc`. -/
def shrState : Chip8 := { withWord 0x81 0x26 with V := setCell blank.V 1 0x81 }

/-- State with `V[1] = 0x81` and the word `812E` at `pc`. -/
def shlState : Chip8 := { withWord 0x81 0x2E with V := setCell blank.V 1 0x81 }

/-- State with the word `D011` at `0x200` and again at `0x202`, `V[0] = 63`, `V[1] = 31`,
`I = 0x300` pointing at the byte `0x80`, blank screen. -/
def drawTwiceState : Chip8 :=
  { blank with
    memory := fun j => if j = 0x200 then 0xD0 else if j = 0x201 then 0x11
                else if j = 0x202 then 0xD0 else if j = 0x203 then 0x11
                else if j = 0x300 then 0x80 else 0
    V := fun j => if j = 0 then 63 else if j = 1 then 31 else 0
    I := 0x300 }

/-- The state `drawTwiceState` with the pixel at `(63, 31)` already lit. -/
def drawTwiceLit : Chip8 := { drawTwiceState with gfx := fun j => if j = 2047 then 1 else 0 }

/-- State with the word `00EE` at `pc` and an empty stack (`sp = 0`). -/
def retEmptyState : Chip8 := withWord 0x00 0xEE

/-- State with the word `2300` at `pc` and a full stack (`sp = 16`). -/
def callFullState : Chip8 := { withWord 0x23 0x00 with sp := 16 }

/-- State with `pc = 4095`, the last byte of memory. -/
def fetchEndState : Chip8 := { blank with pc := 4095 }

/-- State with `I = 4095`, `V[0] = 123` and the word `F033` at `pc`. -/
def bcdEndState : Chip8 := { withWord 0xF0 0x33 with I := 4095, V := setCell blank.V 0 123 }

/-- State with `I = 4095` and the word `F155` at `pc`. -/
def storeEndState : Chip8 := { withWord 0xF1 0x55 with I := 4095 }

/-- State with `I = 4095` and the word `F165` at `pc`. -/
def loadEndState : Chip8 := { withWord 0xF1 0x65 with I := 4095 }

/-- State with `I = 4095` and the word `D002` at `pc`. -/
def drawEndState : Chip8 := { withWord 0xD0 0x02 with I := 4095 }

/-- A host file that opens and holds 3585 bytes `AB`, one more than fits above `0x200`. -/
def bigFile : HostFile :=
  { is_open := true, bytes := 0xAB :: List.replicate 3584 0xAB, delivered := 3585 }

theorem and_shiftLeft_mask (a b k : Nat) : a &&& (b <<< k) = ((a >>> k) &&& b) <<< k := by
  apply Nat.eq_of_testBit_eq
  intro i
  simp only [Nat.testBit_and, Nat.testBit_shiftLeft, Nat.testBit_shiftRight]
  by_cases h : k ≤ i
  · simp [h]
  · simp [h]

theorem and_mask_shifted (op k w : Nat) :
    op &&& ((2 ^ w - 1) <<< k) = 2 ^ k * (op / 2 ^ k % 2 ^ w) := by
  rw [and_shiftLeft_mask, Nat.shiftLeft_eq, Nat.shiftRight_eq_div_pow,
    Nat.and_pow_two_sub_one_eq_mod, Nat.mul_comm]

theorem and_F000 (op : Nat) : op &&& 0xF000 = 4096 * (op / 4096 % 16) :=
  and_mask_shifted op 12 4

theorem and_0F00 (op : Nat) : op &&& 0x0F00 = 256 * (op / 256 % 16) :=
  and_mask_shifted op 8 4

theorem and_00F0 (op : Nat) : op &&& 0x00F0 = 16 * (op / 16 % 16) :=
  and_mask_shifted op 4 4

theorem and_0FFF (op : Nat) : op &&& 0x0FFF = op % 4096 :=
  Nat.and_pow_two_sub_one_eq_mod op 12

theorem and_00FF (op : Nat) : op &&& 0x00FF = op % 256 :=
  Nat.and_pow_two_sub_one_eq_mod op 8

theorem and_000F (op : Nat) : op &&& 0x000F = op % 16 :=
  Nat.and_pow_two_sub_one_eq_mod op 4

theorem nnnOf_eq (op : Nat) : nnnOf op = op % 4096 := and_0FFF op

theorem regXOf_eq (op : Nat) : regXOf op = op / 256 % 16 := by
  unfold regXOf
  rw [and_0F00, Nat.shiftRight_eq_div_pow]
  omega

theorem regYOf_eq (op : Nat) : regYOf op = op / 16 % 16 := by
  unfold regYOf
  rw [and_00F0, Nat.shiftRight_eq_div_pow]
  omega

theorem valOf_eq (op : Nat) : valOf op = op % 256 := by
  unfold valOf
  rw [and_00FF]
  omega

theorem emulateCycle_of_fetch {s : Chip8} {op : Nat} (rnd : Nat) (h : fetch s = some op) :
    emulateCycle s rnd = execute { s with opcode := op, pc := (s.pc + 2) % 65536 } rnd := by
  simp [emulateCycle, h]

theorem fetch_pc_lt {s : Chip8} {op : Nat} (h : fetch s = some op) : s.pc + 1 < 4096 := by
  unfold fetch rd at h
  by_cases h1 : s.pc + 1 < 4096
  · exact h1
  · simp [h1] at h

theorem forLoop_inv {σ : Type} (body : Nat → σ → Option σ) (P : Nat → σ → Prop) :
    ∀ (n lo : Nat) (s : σ), P lo s →
      (∀ i t, lo ≤ i → i < lo + n → P i t → ∃ t', body i t = some t' ∧ P (i + 1) t') →
      ∃ t', forLoop body lo n s = some t' ∧ P (lo + n) t' := by
  intro n
  induction n with
  | zero =>
    intro lo s h0 _
    exact ⟨s, rfl, h0⟩
  | succ n ih =>
    intro lo s h0 hstep
    obtain ⟨t1, hb, hP1⟩ := hstep lo s (Nat.le_refl lo) (by omega) h0
    obtain ⟨t', hl, hP⟩ := ih (lo + 1) t1 hP1
      (fun i t hlo hhi hPi => hstep i t (by omega) (by omega) hPi)
    refine ⟨t', ?_, ?_⟩
    · simp [forLoop, hb, hl]
    · have e : lo + (n + 1) = lo + 1 + n := by omega
      rw [e]
      exact hP

theorem op_FX55_spec (s : Chip8) (x : Nat) (hx : x < 16) (hI : s.I + x < 4096) :
    ∃ s', op_FX55 s x = some s' ∧ s' = { s with memory := s'.memory } ∧
      ∀ a, s'.memory a = if s.I ≤ a ∧ a < s.I + (x + 1) then s.V (a - s.I) else s.memory a := by
  have h := forLoop_inv storeReg
    (fun i t => t = { s with memory := t.memory } ∧
      ∀ a, t.memory a = if s.I ≤ a ∧ a < s.I + i then s.V (a - s.I) else s.memory a)
    (x + 1) 0 s ⟨rfl, fun a => by rw [if_neg (by omega)]⟩
    (by
      intro i t _ hi ⟨ht, hm⟩
      have hi16 : i < 16 := by omega
      have hIi : s.I + i < 4096 := by omega
      have hV : t.V = s.V := by rw [ht]
      have hII : t.I = s.I := by rw [ht]
      refine ⟨{ t with memory := setCell t.memory (s.I + i) (s.V i) }, ?_, ?_, ?_⟩
      · simp [storeReg, rd, wr, hi16, hIi, hV, hII]
      · rw [ht]
      · intro a
        simp only [setCell]
        by_cases ha : a = s.I + i
        · subst ha
          simp
        · rw [if_neg ha, hm a]
          by_cases hlt : s.I ≤ a ∧ a < s.I + i
          · have : s.I ≤ a ∧ a < s.I + (i + 1) := ⟨hlt.1, by omega⟩
            rw [if_pos hlt, if_pos this]
          · have : ¬ (s.I ≤ a ∧ a < s.I + (i + 1)) := by
              intro h
              apply hlt
              exact ⟨h.1, by omega⟩
            rw [if_neg hlt, if_neg this])
  obtain ⟨s', hl, hs', hm⟩ := h
  refine ⟨s', hl, hs', ?_⟩
  intro a
  have := hm a
  simpa using this

theorem op_FX65_spec (s : Chip8) (x : Nat) (hx : x < 16) (hI : s.I + x < 4096) :
    ∃ s', op_FX65 s x = some s' ∧ s' = { s with V := s'.V } ∧
      ∀ j, s'.V j = if j < x + 1 then s.memory (s.I + j) else s.V j := by
  have h := forLoop_inv loadReg
    (fun i t => t = { s with V := t.V } ∧
      ∀ j, t.V j = if j < i then s.memory (s.I + j) else s.V j)
    (x + 1) 0 s ⟨rfl, fun a => by simp⟩
    (by
      intro i t _ hi ⟨ht, hv⟩
      have hi16 : i < 16 := by omega
      have hIi : s.I + i < 4096 := by omega
      have hM : t.memory = s.memory := by rw [ht]
      have hII : t.I = s.I := by rw [ht]
      refine ⟨{ t with V := setCell t.V i (s.memory (s.I + i)) }, ?_, ?_, ?_⟩
      · simp [loadReg, rd, wr, hi16, hIi, hM, hII]
      · rw [ht]
      · intro j
        simp only [setCell]
        by_cases hj : j = i
        · subst hj
          simp
        · rw [if_neg hj, hv j]
          by_cases hlt : j < i
          · have : j < i + 1 := by omega
            rw [if_pos hlt, if_pos this]
          · have : ¬ j < i + 1 := by omega
            rw [if_neg hlt, if_neg this])
  obtain ⟨s', hl, hs', hm⟩ := h
  refine ⟨s', hl, hs', ?_⟩
  intro a
  have := hm a
  simpa using this

theorem fontLoop_memory (n a : Nat) :
    (List.range n).foldl (fun m i => setCell m (0x050 + i) (fontset.getD i 0)) (fun _ => 0) a
      = if 0x050 ≤ a ∧ a < 0x050 + n then fontset.getD (a - 0x050) 0 else 0 := by
  induction n with
  | zero =>
    rw [if_neg (by omega)]
    rfl
  | succ n ih =>
    rw [List.range_succ, List.foldl_append]
    simp only [List.foldl_cons, List.foldl_nil, setCell]
    by_cases ha : a = 0x050 + n
    · subst ha
      rw [if_pos rfl, if_pos ⟨by omega, by omega⟩]
      simp
    · rw [if_neg ha, ih]
      by_cases hlt : 0x050 ≤ a ∧ a < 0x050 + n
      · rw [if_pos hlt, if_pos ⟨hlt.1, by omega⟩]
      · rw [if_neg hlt, if_neg (by omega)]

theorem init_memory (s : Chip8) (a : Nat) :
    (init s).memory a = if 0x050 ≤ a ∧ a < 0x0A0 then fontset.getD (a - 0x050) 0 else 0 := by
  have := fontLoop_memory 80 a
  simpa [init] using this

theorem Toggles.empty {H : Nat → Prop} (t : Chip8) (h : ∀ j, ¬ H j) : Toggles H t t :=
  ⟨rfl, fun j hj => absurd hj (h j), fun _ _ => rfl, fun _ _ => rfl,
    fun ⟨j, hj, _⟩ => absurd hj (h j), fun _ => rfl⟩

theorem Toggles.congr {H H' : Nat → Prop} {t0 t : Chip8} (h : ∀ j, H j ↔ H' j)
    (ht : Toggles H t0 t) : Toggles H' t0 t := by
  have e : H = H' := funext fun j => propext (h j)
  rw [← e]
  exact ht

theorem Toggles.trans {H1 H2 : Nat → Prop} {t0 t1 t2 : Chip8}
    (h1 : Toggles H1 t0 t1) (h2 : Toggles H2 t1 t2) (hd : ∀ j, H1 j → H2 j → False) :
    Toggles (fun j => H1 j ∨ H2 j) t0 t2 := by
  obtain ⟨f1, g1, k1, v1, c1, n1⟩ := h1
  obtain ⟨f2, g2, k2, v2, c2, n2⟩ := h2
  refine ⟨f2.trans f1, ?_, ?_, ?_, ?_, ?_⟩
  · intro j hj
    rcases hj with hj | hj
    · have hn : ¬ H2 j := fun h => hd j hj h
      rw [k2 j hn, g1 j hj]
    · have hn : ¬ H1 j := fun h => hd j h hj
      rw [g2 j hj, k1 j hn]
  · intro j hj
    have hn1 : ¬ H1 j := fun h => hj (Or.inl h)
    have hn2 : ¬ H2 j := fun h => hj (Or.inr h)
    rw [k2 j hn2, k1 j hn1]
  · intro j hj
    rw [v2 j hj, v1 j hj]
  · rintro ⟨j, hj, hone⟩
    by_cases hc : ∃ i, H2 i ∧ t1.gfx i = 1
    · exact c2 hc
    · rw [n2 hc]
      rcases hj with hj | hj
      · exact c1 ⟨j, hj, hone⟩
      · exfalso
        apply hc
        have hn : ¬ H1 j := fun h => hd j h hj
        exact ⟨j, hj, by rw [k1 j hn]; exact hone⟩
  · intro hno
    have hno1 : ¬ ∃ j, H1 j ∧ t0.gfx j = 1 := fun ⟨j, hj, ho⟩ => hno ⟨j, Or.inl hj, ho⟩
    have hno2 : ¬ ∃ j, H2 j ∧ t1.gfx j = 1 := by
      rintro ⟨j, hj, ho⟩
      have hn : ¬ H1 j := fun h => hd j h hj
      rw [k1 j hn] at ho
      exact hno ⟨j, Or.inr hj, ho⟩
    rw [n2 hno2, n1 hno1]

theorem drawPixel_toggles (xs ys row sprite col : Nat) (t : Chip8) :
    ∃ t', drawPixel xs ys row sprite col t = some t' ∧
      Toggles (fun j => sprite &&& (0x80 >>> col) ≠ 0 ∧ j = cellOf xs ys row col) t t' := by
  by_cases hb : sprite &&& (0x80 >>> col) ≠ 0
  · have hidx : cellOf xs ys row col < 2048 := by
      simp only [cellOf, SCREEN_H, SCREEN_W]
      omega
    have hidx' : (ys + row) % SCREEN_H * SCREEN_W + (xs + col) % SCREEN_W < 2048 := hidx
    refine ⟨{ t with
        V := if t.gfx (cellOf xs ys row col) = 1 then setCell t.V 0xF 1 else t.V
        gfx := setCell t.gfx (cellOf xs ys row col)
          ((t.gfx (cellOf xs ys row col) ^^^ 1) % 256) }, ?_, ?_⟩
    · unfold drawPixel
      rw [if_pos hb]
      by_cases hg : t.gfx (cellOf xs ys row col) = 1
      · have hg' : t.gfx ((ys + row) % SCREEN_H * SCREEN_W + (xs + col) % SCREEN_W) = 1 := hg
        simp [rd, wr, hidx', hg, hg', cellOf]
      · have hg' : ¬ t.gfx ((ys + row) % SCREEN_H * SCREEN_W + (xs + col) % SCREEN_W) = 1 := hg
        simp [rd, wr, hidx', hg, hg', cellOf]
    · refine ⟨rfl, ?_, ?_, ?_, ?_, ?_⟩
      · rintro j ⟨_, rfl⟩
        simp [setCell]
      · intro j hj
        have : j ≠ cellOf xs ys row col := fun h => hj ⟨hb, h⟩
        simp [setCell, this]
      · intro j hj
        show (if t.gfx (cellOf xs ys row col) = 1 then setCell t.V 0xF 1 else t.V) j = t.V j
        split
        · simp [setCell, hj]
        · rfl
      · rintro ⟨j, ⟨_, rfl⟩, ho⟩
        show (if t.gfx (cellOf xs ys row col) = 1 then setCell t.V 0xF 1 else t.V) 0xF = 1
        rw [if_pos ho]
        simp [setCell]
      · intro hno
        have hg : ¬ t.gfx (cellOf xs ys row col) = 1 := fun h => hno ⟨_, ⟨hb, rfl⟩, h⟩
        show (if t.gfx (cellOf xs ys row col) = 1 then setCell t.V 0xF 1 else t.V) 0xF = _
        rw [if_neg hg]
  · refine ⟨t, ?_, Toggles.empty t (fun j h => hb h.1)⟩
    unfold drawPixel
    rw [if_neg hb]

theorem cellOf_inj {xs ys r c r' c' : Nat} (hr : r < 16) (hr' : r' < 16) (hc : c < 8)
    (hc' : c' < 8) (h : cellOf xs ys r c = cellOf xs ys r' c') : r = r' ∧ c = c' := by
  simp only [cellOf, SCREEN_H, SCREEN_W] at h
  omega

theorem drawRow_toggles (xs ys row : Nat) (t : Chip8) (hrow : row < 16)
    (hI : t.I + row < 4096) :
    ∃ t', drawRow xs ys row t = some t' ∧
      Toggles (fun j => ∃ c, c < 8 ∧ t.memory (t.I + row) &&& (0x80 >>> c) ≠ 0 ∧
        j = cellOf xs ys row c) t t' := by
  have h := forLoop_inv (drawPixel xs ys row (t.memory (t.I + row)))
    (fun k u => Toggles (fun j => ∃ c, c < k ∧ t.memory (t.I + row) &&& (0x80 >>> c) ≠ 0 ∧
      j = cellOf xs ys row c) t u)
    8 0 t (Toggles.empty t (fun j ⟨c, hc, _⟩ => by omega))
    (by
      intro k u _ hk hu
      obtain ⟨u', hd, hu'⟩ := drawPixel_toggles xs ys row (t.memory (t.I + row)) k u
      refine ⟨u', hd, ?_⟩
      have ht := Toggles.trans hu hu' (by
        rintro j ⟨c, hc, _, hj⟩ ⟨_, hj'⟩
        have := cellOf_inj hrow hrow (by omega) (by omega) (hj.symm.trans hj')
        omega)
      refine Toggles.congr ?_ ht
      intro j
      constructor
      · rintro (⟨c, hc, hb, hj⟩ | ⟨hb, hj⟩)
        · exact ⟨c, by omega, hb, hj⟩
        · exact ⟨k, by omega, hb, hj⟩
      · rintro ⟨c, hc, hb, hj⟩
        by_cases hck : c = k
        · subst hck
          exact Or.inr ⟨hb, hj⟩
        · exact Or.inl ⟨c, by omega, hb, hj⟩)
  obtain ⟨t', hl, ht'⟩ := h
  refine ⟨t', ?_, ?_⟩
  · simp only [drawRow, rd, if_pos hI]
    simpa using hl
  · simpa using ht'

theorem drawRows_toggles (xs ys n : Nat) (t : Chip8) (hn : n < 16) (hI : t.I + n ≤ 4096) :
    ∃ t', forLoop (drawRow xs ys) 0 n t = some t' ∧
      Toggles (fun j => ∃ r c, r < n ∧ c < 8 ∧ t.memory (t.I + r) &&& (0x80 >>> c) ≠ 0 ∧
        j = cellOf xs ys r c) t t' := by
  have h := forLoop_inv (drawRow xs ys)
    (fun k u => Toggles (fun j => ∃ r c, r < k ∧ c < 8 ∧
      t.memory (t.I + r) &&& (0x80 >>> c) ≠ 0 ∧ j = cellOf xs ys r c) t u)
    n 0 t (Toggles.empty t (fun j ⟨r, c, hr, _⟩ => by omega))
    (by
      intro k u _ hk hu
      have hfr := hu.1
      have hmem : u.memory = t.memory :=
        show (frame u).memory = (frame t).memory from congrArg Chip8.memory hfr
      have hII : u.I = t.I := show (frame u).I = (frame t).I from congrArg Chip8.I hfr
      obtain ⟨u', hd, hu'⟩ := drawRow_toggles xs ys k u (by omega) (by rw [hII]; omega)
      rw [hmem, hII] at hu'
      refine ⟨u', hd, ?_⟩
      have ht := Toggles.trans hu hu' (by
        rintro j ⟨r, c, hr, hc, _, hj⟩ ⟨c', hc', _, hj'⟩
        have := cellOf_inj (by omega) (by omega) hc hc' (hj.symm.trans hj')
        omega)
      refine Toggles.congr ?_ ht
      intro j
      constructor
      · rintro (⟨r, c, hr, hc, hb, hj⟩ | ⟨c, hc, hb, hj⟩)
        · exact ⟨r, c, by omega, hc, hb, hj⟩
        · exact ⟨k, c, by omega, hc, hb, hj⟩
      · rintro ⟨r, c, hr, hc, hb, hj⟩
        by_cases hrk : r = k
        · subst hrk
          exact Or.inr ⟨c, hc, hb, hj⟩
        · exact Or.inl ⟨r, c, by omega, hc, hb, hj⟩)
  obtain ⟨t', hl, ht'⟩ := h
  exact ⟨t', hl, by simpa using ht'⟩

/-- One DXYN cycle: the cycle completes, and its result is the fetched state with `V[0xF]`
cleared, the sprite cells toggled, and `drawFlag` set. -/
theorem draw_cycle (s : Chip8) (x y n rnd : Nat) (hx : x < 16) (hy : y < 16) (hn : n < 16)
    (hI : s.I + n ≤ 4096) (hf : fetch s = some (0xD000 + 256 * x + 16 * y + n)) :
    ∃ t, emulateCycle s rnd = some { t with drawFlag := true } ∧
      Toggles (fun j => ∃ r c, r < n ∧ c < 8 ∧ s.memory (s.I + r) &&& (0x80 >>> c) ≠ 0 ∧
        j = cellOf (s.V x) (s.V y) r c)
        { s with
          opcode := 0xD000 + 256 * x + 16 * y + n
          pc := (s.pc + 2) % 65536
          V := setCell s.V 0xF 0 } t := by
  have htop : (0xD000 + 256 * x + 16 * y + n) &&& 0xF000 = 0xD000 := by
    rw [and_F000]; omega
  have hN : (0xD000 + 256 * x + 16 * y + n) &&& 0x000F = n := by rw [and_000F]; omega
  have hX : regXOf (0xD000 + 256 * x + 16 * y + n) = x := by rw [regXOf_eq]; omega
  have hY : regYOf (0xD000 + 256 * x + 16 * y + n) = y := by rw [regYOf_eq]; omega
  obtain ⟨t, hl, ht⟩ := drawRows_toggles (s.V x) (s.V y) n
    { s with
      opcode := 0xD000 + 256 * x + 16 * y + n
      pc := (s.pc + 2) % 65536
      V := setCell s.V 0xF 0 } hn hI
  refine ⟨t, ?_, ht⟩
  rw [emulateCycle_of_fetch rnd hf]
  simp only [execute, htop, hX, hY]
  simp [op_DXYN, rd, wr, hx, hy, hN, hl]

/-- Opcode 8XY4 for `x ≠ 0xF`: the flag is the carry and `V[x]` the sum modulo 256. -/
theorem add_carry (s : Chip8) (x y rnd : Nat) (hx : x < 16) (hy : y < 16) (hxF : x ≠ 0xF)
    (hV : ∀ i < 16, s.V i < 256) (hf : fetch s = some (0x8004 + 256 * x + 16 * y)) :
    ∃ s', emulateCycle s rnd = some s' ∧
      s'.V 0xF = (if s.V x + s.V y > 255 then 1 else 0) ∧
      s'.V x = (s.V x + s.V y) % 256 ∧
      (∀ j, j ≠ x → j ≠ 0xF → s'.V j = s.V j) ∧
      s'.I = s.I ∧ s'.memory = s.memory ∧ s'.stack = s.stack ∧ s'.gfx = s.gfx ∧
      s'.pc = s.pc + 2 := by
  have hpc := fetch_pc_lt hf
  have htop : (0x8004 + 256 * x + 16 * y) &&& 0xF000 = 0x8000 := by rw [and_F000]; omega
  have hn : (0x8004 + 256 * x + 16 * y) &&& 0x000F = 4 := by rw [and_000F]; omega
  have hX : regXOf (0x8004 + 256 * x + 16 * y) = x := by rw [regXOf_eq]; omega
  have hY : regYOf (0x8004 + 256 * x + 16 * y) = y := by rw [regYOf_eq]; omega
  have hpc2 : (s.pc + 2) % 65536 = s.pc + 2 := by omega
  have hvx := hV x hx
  have hvy := hV y hy
  have hsum : (s.V x + s.V y) % 65536 = s.V x + s.V y := by omega
  have hlow : (s.V x + s.V y) &&& 0xFF = (s.V x + s.V y) % 256 := and_00FF _
  have h1 : emulateCycle s rnd = some { s with
      opcode := 0x8004 + 256 * x + 16 * y
      pc := s.pc + 2
      V := setCell (setCell s.V 0xF (if s.V x + s.V y > 0xFF then 1 else 0)) x
        ((s.V x + s.V y) % 256) } := by
    rw [emulateCycle_of_fetch rnd hf]
    simp [execute, op_8XYN, htop, hn, hX, hY, op_8XY4, rd, wr, hx, hy, hpc2, hsum, hlow]
  refine ⟨_, h1, ?_, ?_, ?_, rfl, rfl, rfl, rfl, rfl⟩
  · have : (15 : Nat) ≠ x := fun h => hxF h.symm
    simp [setCell, this]
  · simp [setCell]
  · intro j hj hjF
    simp [setCell, hj, hjF]

/-- Opcode 8XY5 when neither `x` nor `y` is `0xF`: `V[x]` is the difference modulo 256 and
the flag tells whether `V[x] > V[y]` held. -/
theorem sub_flag (s : Chip8) (x y rnd : Nat) (hx : x < 16) (hy : y < 16) (hxF : x ≠ 0xF)
    (hyF : y ≠ 0xF) (hV : ∀ i < 16, s.V i < 256)
    (hf : fetch s = some (0x8005 + 256 * x + 16 * y)) :
    ∃ s', emulateCycle s rnd = some s' ∧
      s'.V x = (s.V x + 256 - s.V y) % 256 ∧
      s'.V 0xF = (if s.V x > s.V y then 1 else 0) := by
  have hpc := fetch_pc_lt hf
  have htop : (0x8005 + 256 * x + 16 * y) &&& 0xF000 = 0x8000 := by rw [and_F000]; omega
  have hn : (0x8005 + 256 * x + 16 * y) &&& 0x000F = 5 := by rw [and_000F]; omega
  have hX : regXOf (0x8005 + 256 * x + 16 * y) = x := by rw [regXOf_eq]; omega
  have hY : regYOf (0x8005 + 256 * x + 16 * y) = y := by rw [regYOf_eq]; omega
  have hvx := hV x hx
  have hvy := hV y hy
  have hu : u8 ((s.V x : Int) - s.V y) = (s.V x + 256 - s.V y) % 256 := by
    unfold u8
    omega
  have hFx : x ≠ 15 := hxF
  have hFy : y ≠ 15 := hyF
  have h1 : emulateCycle s rnd = some { s with
      opcode := 0x8005 + 256 * x + 16 * y
      pc := (s.pc + 2) % 65536
      V := setCell (setCell s.V 0xF (if s.V x > s.V y then 1 else 0)) x
        ((s.V x + 256 - s.V y) % 256) } := by
    rw [emulateCycle_of_fetch rnd hf]
    simp [execute, op_8XYN, htop, hn, hX, hY, op_8XY5, rd, wr, hx, hy, setCell, hFx, hFy, hu]
  refine ⟨_, h1, ?_, ?_⟩
  · simp [setCell]
  · have : (15 : Nat) ≠ x := fun h => hxF h.symm
    simp [setCell, this]

theorem u8_pred (d : Nat) (h0 : 0 < d) (h : d < 256) : u8 ((d : Int) - 1) = d - 1 := by
  unfold u8
  omega

theorem updateTimers_sound (s : Chip8) (hs : s.sound_timer < 256) :
    (updateTimers s).1.sound_timer = s.sound_timer - 1 ∧
      (updateTimers s).1.isBeeping = decide (s.sound_timer > 0) ∧
      (updateTimers s).2 =
        (if s.isBeeping = true ∧ s.sound_timer = 0 then [AudioCmd.stop]
         else if s.isBeeping = false ∧ s.sound_timer > 0 then [AudioCmd.start]
         else []) := by
  rcases s with ⟨gfx, df, kp, pc, opc, I, sp, V, stk, mem, dt, st, ib⟩
  simp only at hs
  cases ib <;> rcases Nat.eq_zero_or_pos st with h0 | h0 <;>
    rcases Nat.eq_zero_or_pos dt with hd0 | hd0
  all_goals
    first
    | subst h0
      first
      | subst hd0
        simp [updateTimers, stopBeep, startBeep]
      | simp [updateTimers, stopBeep, startBeep, hd0]
    | have hne : st ≠ 0 := Nat.pos_iff_ne_zero.mp h0
      first
      | subst hd0
        simp [updateTimers, stopBeep, startBeep, h0, hne, u8_pred st h0 hs]
      | simp [updateTimers, stopBeep, startBeep, h0, hne, hd0, u8_pred st h0 hs]

theorem updateTimers_delay (s : Chip8) (hd : s.delay_timer < 256) :
    (updateTimers s).1.delay_timer = s.delay_timer - 1 := by
  rcases s with ⟨gfx, df, kp, pc, opc, I, sp, V, stk, mem, dt, st, ib⟩
  simp only at hd
  cases ib <;> rcases Nat.eq_zero_or_pos st with h0 | h0 <;>
    rcases Nat.eq_zero_or_pos dt with hd0 | hd0
  all_goals
    first
    | subst h0
      first
      | subst hd0
        simp [updateTimers, stopBeep, startBeep]
      | simp [updateTimers, stopBeep, startBeep, hd0, u8_pred dt hd0 hd]
    | have hne : st ≠ 0 := Nat.pos_iff_ne_zero.mp h0
      first
      | subst hd0
        simp [updateTimers, stopBeep, startBeep, h0, hne]
      | simp [updateTimers, stopBeep, startBeep, h0, hne, hd0, u8_pred dt hd0 hd]

theorem ticks_running (g : Nat → Chip8 → Chip8) (s : Chip8) (n : Nat) (hn : n ≤ 255)
    (hb : s.isBeeping = false) (hs : s.sound_timer = n)
    (hg : ∀ k t, (g k t).sound_timer = t.sound_timer ∧ (g k t).isBeeping = t.isBeeping) :
    ∀ k, 1 ≤ k → k ≤ n →
      (ticks g k s).1.isBeeping = true ∧ (ticks g k s).1.sound_timer = n - k ∧
        (ticks g k s).2 = [AudioCmd.start] := by
  intro k
  induction k with
  | zero => intro h; omega
  | succ k ih =>
    intro _ hk
    have hgs := hg k (ticks g k s).1
    rcases Nat.eq_zero_or_pos k with h0 | h0
    · subst h0
      have hs0 : (g 0 s).sound_timer = n := by rw [(hg 0 s).1, hs]
      have hb0 : (g 0 s).isBeeping = false := by rw [(hg 0 s).2, hb]
      obtain ⟨h1, h2, h3⟩ := updateTimers_sound (g 0 s) (by omega)
      have hpos : (g 0 s).sound_timer > 0 := by omega
      have hne : ¬ ((g 0 s).isBeeping = true ∧ (g 0 s).sound_timer = 0) := by
        intro h
        omega
      refine ⟨?_, ?_, ?_⟩
      · show (updateTimers (g 0 s)).1.isBeeping = true
        rw [h2]
        simp [hpos]
      · show (updateTimers (g 0 s)).1.sound_timer = n - (0 + 1)
        rw [h1, hs0]
      · show [] ++ (updateTimers (g 0 s)).2 = [AudioCmd.start]
        rw [h3, if_neg hne, if_pos ⟨hb0, hpos⟩]
        rfl
    · obtain ⟨ib, ist, ilog⟩ := ih (by omega) (by omega)
      have hs1 : (g k (ticks g k s).1).sound_timer = n - k := by rw [hgs.1, ist]
      have hb1 : (g k (ticks g k s).1).isBeeping = true := by rw [hgs.2, ib]
      obtain ⟨h1, h2, h3⟩ := updateTimers_sound (g k (ticks g k s).1) (by omega)
      have hpos : (g k (ticks g k s).1).sound_timer > 0 := by omega
      have hne : ¬ ((g k (ticks g k s).1).isBeeping = true ∧
          (g k (ticks g k s).1).sound_timer = 0) := by
        intro h
        omega
      have hne2 : ¬ ((g k (ticks g k s).1).isBeeping = false ∧
          (g k (ticks g k s).1).sound_timer > 0) := by
        intro h
        rw [hb1] at h
        exact Bool.noConfusion h.1
      refine ⟨?_, ?_, ?_⟩
      · show (updateTimers (g k (ticks g k s).1)).1.isBeeping = true
        rw [h2]
        simp [hpos]
      · show (updateTimers (g k (ticks g k s).1)).1.sound_timer = n - (k + 1)
        rw [h1, hs1]
        omega
      · show (ticks g k s).2 ++ (updateTimers (g k (ticks g k s).1)).2 = [AudioCmd.start]
        rw [h3, if_neg hne, if_neg hne2, ilog]
        rfl

theorem setCell_setCell (a : Nat → Nat) (i v w : Nat) :
    setCell (setCell a i v) i w = setCell a i w := by
  funext j
  simp only [setCell]
  split <;> rfl

theorem scanKeys_spec (s : Chip8) (x : Nat) (hx : x < 16) :
    ∃ st, forLoop (scanKey x) 0 16 (s, false) = some st ∧
      st.1 = { s with V := st.1.V } ∧
      (st.2 = false → (∀ j, j < 16 → s.keypad j = 0) ∧ st.1.V = s.V) ∧
      (st.2 = true → ∃ k, k < 16 ∧ s.keypad k ≠ 0 ∧
        (∀ j, k < j → j < 16 → s.keypad j = 0) ∧ st.1.V = setCell s.V x k) := by
  have h := forLoop_inv (scanKey x)
    (fun i st => st.1 = { s with V := st.1.V } ∧
      (st.2 = false → (∀ j, j < i → s.keypad j = 0) ∧ st.1.V = s.V) ∧
      (st.2 = true → ∃ k, k < i ∧ s.keypad k ≠ 0 ∧
        (∀ j, k < j → j < i → s.keypad j = 0) ∧ st.1.V = setCell s.V x k))
    16 0 (s, false)
    ⟨rfl, fun _ => ⟨fun j hj => by omega, rfl⟩, fun h => Bool.noConfusion h⟩
    (by
      rintro i ⟨t, b⟩ _ hi ⟨hfr, hF, hT⟩
      simp only [] at hfr hF hT
      have hi16 : i < 16 := by omega
      have hkp : t.keypad = s.keypad := by
        have := congrArg Chip8.keypad hfr
        exact this
      have hmod : i % 256 = i := by omega
      by_cases hk : s.keypad i = 0
      · refine ⟨(t, b), ?_, hfr, ?_, ?_⟩
        · simp [scanKey, rd, hi16, hkp, hk]
        · intro hb
          obtain ⟨h1, h2⟩ := hF hb
          refine ⟨?_, h2⟩
          intro j hj
          by_cases hji : j = i
          · rw [hji]
            exact hk
          · exact h1 j (by omega)
        · intro hb
          obtain ⟨k, hki, hkn, hkz, hV⟩ := hT hb
          refine ⟨k, by omega, hkn, ?_, hV⟩
          intro j hkj hj
          by_cases hji : j = i
          · rw [hji]
            exact hk
          · exact hkz j hkj (by omega)
      · refine ⟨({ t with V := setCell t.V x i }, true), ?_, ?_, ?_, ?_⟩
        · simp [scanKey, rd, wr, hi16, hkp, hk, hx, hmod]
        · show { t with V := setCell t.V x i } = { s with V := setCell t.V x i }
          rw [hfr]
        · intro hb
          exact Bool.noConfusion hb
        · intro _
          refine ⟨i, by omega, hk, fun j h1 h2 => by omega, ?_⟩
          show setCell t.V x i = setCell s.V x i
          cases b with
          | false => rw [(hF rfl).2]
          | true =>
            obtain ⟨k, _, _, _, hV⟩ := hT rfl
            rw [hV, setCell_setCell])
  obtain ⟨st, hl, h1, h2, h3⟩ := h
  refine ⟨st, hl, h1, ?_, ?_⟩
  · intro hb
    obtain ⟨a, b⟩ := h2 hb
    exact ⟨fun j hj => a j (by omega), b⟩
  · intro hb
    obtain ⟨k, a, b, c, d⟩ := h3 hb
    exact ⟨k, by omega, b, fun j h1 h2 => c j h1 (by omega), d⟩

/-- Opcodes EX9E and EXA1 when `V[x]` is a key index below 16: the skip is decided by
`keypad[V[x]]`, which then is `keypad[V[x] & 0xF]`. -/
theorem key_skip_in_range (s : Chip8) (x rnd : Nat) (hx : x < 16) (hv : s.V x < 16) :
    (fetch s = some (0xE09E + 256 * x) →
      ∃ s', emulateCycle s rnd = some s' ∧
        s'.pc = (if s.keypad (s.V x &&& 0xF) ≠ 0 then s.pc + 4 else s.pc + 2)) ∧
    (fetch s = some (0xE0A1 + 256 * x) →
      ∃ s', emulateCycle s rnd = some s' ∧
        s'.pc = (if s.keypad (s.V x &&& 0xF) = 0 then s.pc + 4 else s.pc + 2)) := by
  have hmask : s.V x &&& 0xF = s.V x := by
    rw [and_000F]
    omega
  rw [hmask]
  constructor
  · intro hf
    have hpc := fetch_pc_lt hf
    have htop : (0xE09E + 256 * x) &&& 0xF000 = 0xE000 := by rw [and_F000]; omega
    have hval : valOf (0xE09E + 256 * x) = 0x9E := by rw [valOf_eq]; omega
    have hX : regXOf (0xE09E + 256 * x) = x := by rw [regXOf_eq]; omega
    have hpc2 : (s.pc + 2) % 65536 = s.pc + 2 := by omega
    have hpc4 : (s.pc + 2 + 2) % 65536 = s.pc + 4 := by omega
    have h : emulateCycle s rnd = some { s with
        opcode := 0xE09E + 256 * x
        pc := if s.keypad (s.V x) ≠ 0 then s.pc + 4 else s.pc + 2 } := by
      rw [emulateCycle_of_fetch rnd hf]
      simp only [execute, htop, hval, hX]
      by_cases hk : s.keypad (s.V x) = 0
      · simp [op_EX9E, rd, hx, hv, hk, hpc2]
      · simp [op_EX9E, rd, hx, hv, hk, hpc2, hpc4]
    exact ⟨_, h, rfl⟩
  · intro hf
    have hpc := fetch_pc_lt hf
    have htop : (0xE0A1 + 256 * x) &&& 0xF000 = 0xE000 := by rw [and_F000]; omega
    have hval : valOf (0xE0A1 + 256 * x) = 0xA1 := by rw [valOf_eq]; omega
    have hX : regXOf (0xE0A1 + 256 * x) = x := by rw [regXOf_eq]; omega
    have hpc2 : (s.pc + 2) % 65536 = s.pc + 2 := by omega
    have hpc4 : (s.pc + 2 + 2) % 65536 = s.pc + 4 := by omega
    have h : emulateCycle s rnd = some { s with
        opcode := 0xE0A1 + 256 * x
        pc := if s.keypad (s.V x) = 0 then s.pc + 4 else s.pc + 2 } := by
      rw [emulateCycle_of_fetch rnd hf]
      simp only [execute, htop, hval, hX]
      by_cases hk : s.keypad (s.V x) = 0
      · simp [op_EXA1, rd, hx, hv, hk, hpc2, hpc4]
      · simp [op_EXA1, rd, hx, hv, hk, hpc2]
    exact ⟨_, h, rfl⟩

/-- Words with top nibble 0 whose low byte is neither `E0` nor `EE` fall to the `default`
of the inner switch: the cycle only advances `pc`. -/
theorem sys_ignored (s : Chip8) (op rnd : Nat) (hf : fetch s = some op)
    (htop : op &&& 0xF000 = 0) (hE0 : op &&& 0x0FF ≠ 0x00E0) (hEE : op &&& 0x0FF ≠ 0x00EE) :
    emulateCycle s rnd = some { s with opcode := op, pc := s.pc + 2 } := by
  have hpc := fetch_pc_lt hf
  have hpc2 : (s.pc + 2) % 65536 = s.pc + 2 := by omega
  rw [emulateCycle_of_fetch rnd hf]
  simp [execute, htop, hE0, hEE, hpc2]

/-- Words of the families 8, E and F that match no `case` of their inner switch: the cycle
only advances `pc`. -/
theorem unknown_noop (s : Chip8) (op rnd : Nat) (hf : fetch s = some op)
    (h : (op &&& 0xF000 = 0x8000 ∧ 8 ≤ op &&& 0x000F ∧ op &&& 0x000F ≠ 0xE) ∨
      (op &&& 0xF000 = 0xE000 ∧ valOf op ≠ 0x9E ∧ valOf op ≠ 0xA1) ∨
      (op &&& 0xF000 = 0xF000 ∧ valOf op ≠ 0x07 ∧ valOf op ≠ 0x0A ∧ valOf op ≠ 0x15 ∧
        valOf op ≠ 0x18 ∧ valOf op ≠ 0x1E ∧ valOf op ≠ 0x29 ∧ valOf op ≠ 0x33 ∧
        valOf op ≠ 0x55 ∧ valOf op ≠ 0x65)) :
    emulateCycle s rnd = some { s with opcode := op, pc := s.pc + 2 } := by
  have hpc := fetch_pc_lt hf
  have hpc2 : (s.pc + 2) % 65536 = s.pc + 2 := by omega
  rw [emulateCycle_of_fetch rnd hf]
  rcases h with ⟨htop, h8, hE⟩ | ⟨htop, h1, h2⟩ | ⟨htop, h1, h2, h3, h4, h5, h6, h7, h8, h9⟩
  · have n0 : op &&& 0x000F ≠ 0 := by omega
    have n1 : op &&& 0x000F ≠ 1 := by omega
    have n2 : op &&& 0x000F ≠ 2 := by omega
    have n3 : op &&& 0x000F ≠ 3 := by omega
    have n4 : op &&& 0x000F ≠ 4 := by omega
    have n5 : op &&& 0x000F ≠ 5 := by omega
    have n6 : op &&& 0x000F ≠ 6 := by omega
    have n7 : op &&& 0x000F ≠ 7 := by omega
    simp [execute, op_8XYN, htop, n0, n1, n2, n3, n4, n5, n6, n7, hE, hpc2]
  · simp [execute, htop, h1, h2, hpc2]
  · simp [execute, htop, h1, h2, h3, h4, h5, h6, h7, h8, h9, hpc2]

theorem spriteHit_lt {s : Chip8} {x y n j : Nat} (h : spriteHit s x y n j) : j < 2048 := by
  obtain ⟨r, c, _, _, _, he⟩ := h
  simp only [cellOf, SCREEN_H, SCREEN_W] at he
  omega

/-- Two DXYN cycles with the same sprite, position and `I`: both cycles complete, and the
second result is described from the framebuffer before the first cycle. -/
theorem draw_twice (s : Chip8) (x y n rnd rnd' : Nat) (hx : x < 16) (hy : y < 16)
    (hn : n < 16) (hI : s.I + n ≤ 4096)
    (hf : fetch s = some (0xD000 + 256 * x + 16 * y + n)) :
    ∃ s1, emulateCycle s rnd = some s1 ∧
      ∀ u : Chip8, u.gfx = s1.gfx → u.I = s.I →
        (∀ r, r < n → u.memory (u.I + r) = s.memory (s.I + r)) →
        u.V x = s.V x → u.V y = s.V y →
        fetch u = some (0xD000 + 256 * x + 16 * y + n) →
        ∃ s2, emulateCycle u rnd' = some s2 ∧
          (∀ j, spriteHit s x y n j →
            s2.gfx j = (((s.gfx j ^^^ 1) % 256) ^^^ 1) % 256) ∧
          (∀ j, ¬ spriteHit s x y n j → s2.gfx j = s.gfx j) ∧
          ((∃ j, spriteHit s x y n j ∧ (s.gfx j ^^^ 1) % 256 = 1) → s2.V 0xF = 1) ∧
          (¬ (∃ j, spriteHit s x y n j ∧ (s.gfx j ^^^ 1) % 256 = 1) → s2.V 0xF = 0) := by
  obtain ⟨t1, hc1, _, hg1, hk1, _, _, _⟩ := draw_cycle s x y n rnd hx hy hn hI hf
  refine ⟨_, hc1, ?_⟩
  intro u hug huI hum hux huy hfu
  obtain ⟨t2, hc2, _, hg2, hk2, _, hone2, hzero2⟩ :=
    draw_cycle u x y n rnd' hx hy hn (by rw [huI]; exact hI) hfu
  have hH : ∀ j, (∃ r c, r < n ∧ c < 8 ∧ u.memory (u.I + r) &&& (0x80 >>> c) ≠ 0 ∧
      j = cellOf (u.V x) (u.V y) r c) ↔ spriteHit s x y n j := by
    intro j
    constructor
    · rintro ⟨r, c, hr, hc, hb, he⟩
      rw [hum r hr] at hb
      rw [hux, huy] at he
      exact ⟨r, c, hr, hc, hb, he⟩
    · rintro ⟨r, c, hr, hc, hb, he⟩
      rw [← hum r hr] at hb
      rw [← hux, ← huy] at he
      exact ⟨r, c, hr, hc, hb, he⟩
  have hu1 : ∀ j, spriteHit s x y n j → u.gfx j = (s.gfx j ^^^ 1) % 256 := by
    intro j hj
    rw [hug]
    exact hg1 j hj
  have hu0 : ∀ j, ¬ spriteHit s x y n j → u.gfx j = s.gfx j := by
    intro j hj
    rw [hug]
    exact hk1 j hj
  refine ⟨_, hc2, ?_, ?_, ?_, ?_⟩
  · intro j hj
    have h := hg2 j ((hH j).2 hj)
    have e : u.gfx j = (s.gfx j ^^^ 1) % 256 := hu1 j hj
    show t2.gfx j = _
    rw [h]
    show (u.gfx j ^^^ 1) % 256 = _
    rw [e]
  · intro j hj
    have h := hk2 j (fun hh => hj ((hH j).1 hh))
    show t2.gfx j = _
    rw [h]
    exact hu0 j hj
  · rintro ⟨j, hj, h1⟩
    apply hone2
    refine ⟨j, (hH j).2 hj, ?_⟩
    show u.gfx j = 1
    rw [hu1 j hj]
    exact h1
  · intro hno
    have hz := hzero2 (by
      rintro ⟨j, hj, h1⟩
      apply hno
      have hj' := (hH j).1 hj
      refine ⟨j, hj', ?_⟩
      rw [← hu1 j hj']
      exact h1)
    show t2.V 0xF = 0
    rw [hz]
    simp [setCell]

/-! ## Effect of each instruction on `memory`, `gfx` and `pc` -/

theorem op_6XKK_plain {s t : Chip8} {x v : Nat} (h : op_6XKK s x v = some t) : Plain s t := by
  simp only [op_6XKK, rd, wr] at h
  split_ifs at h <;> simp at h <;> subst h <;> exact ⟨rfl, rfl, rfl⟩

theorem op_7XKK_plain {s t : Chip8} {x v : Nat} (h : op_7XKK s x v = some t) : Plain s t := by
  simp only [op_7XKK, rd, wr] at h
  split_ifs at h <;> simp at h <;> subst h <;> exact ⟨rfl, rfl, rfl⟩

theorem op_8XY0_plain {s t : Chip8} {x y : Nat} (h : op_8XY0 s x y = some t) : Plain s t := by
  simp only [op_8XY0, rd, wr] at h
  split_ifs at h <;> simp at h <;> subst h <;> exact ⟨rfl, rfl, rfl⟩

theorem op_8XY1_plain {s t : Chip8} {x y : Nat} (h : op_8XY1 s x y = some t) : Plain s t := by
  simp only [op_8XY1, rd, wr] at h
  split_ifs at h <;> simp at h <;> subst h <;> exact ⟨rfl, rfl, rfl⟩

theorem op_8XY2_plain {s t : Chip8} {x y : Nat} (h : op_8XY2 s x y = some t) : Plain s t := by
  simp only [op_8XY2, rd, wr] at h
  split_ifs at h <;> simp at h <;> subst h <;> exact ⟨rfl, rfl, rfl⟩

theorem op_8XY3_plain {s t : Chip8} {x y : Nat} (h : op_8XY3 s x y = some t) : Plain s t := by
  simp only [op_8XY3, rd, wr] at h
  split_ifs at h <;> simp at h <;> subst h <;> exact ⟨rfl, rfl, rfl⟩

theorem op_8XY4_plain {s t : Chip8} {x y : Nat} (h : op_8XY4 s x y = some t) : Plain s t := by
  simp only [op_8XY4, rd, wr] at h
  split_ifs at h <;> simp at h <;> subst h <;> exact ⟨rfl, rfl, rfl⟩

theorem op_8XY5_plain {s t : Chip8} {x y : Nat} (h : op_8XY5 s x y = some t) : Plain s t := by
  simp only [op_8XY5, rd, wr] at h
  split_ifs at h <;> simp at h <;> subst h <;> exact ⟨rfl, rfl, rfl⟩

theorem op_8XY6_plain {s t : Chip8} {x : Nat} (h : op_8XY6 s x = some t) : Plain s t := by
  simp only [op_8XY6, rd, wr] at h
  split_ifs at h <;> simp at h <;> subst h <;> exact ⟨rfl, rfl, rfl⟩

theorem op_8XY7_plain {s t : Chip8} {x y : Nat} (h : op_8XY7 s x y = some t) : Plain s t := by
  simp only [op_8XY7, rd, wr] at h
  split_ifs at h <;> simp at h <;> subst h <;> exact ⟨rfl, rfl, rfl⟩

theorem op_8XYE_plain {s t : Chip8} {x : Nat} (h : op_8XYE s x = some t) : Plain s t := by
  simp only [op_8XYE, rd, wr] at h
  split_ifs at h <;> simp at h <;> subst h <;> exact ⟨rfl, rfl, rfl⟩

theorem op_8XYN_plain {s t : Chip8} {x y : Nat} (h : op_8XYN s x y = some t) : Plain s t := by
  simp only [op_8XYN] at h
  split_ifs at h
  · exact op_8XY0_plain h
  · exact op_8XY1_plain h
  · exact op_8XY2_plain h
  · exact op_8XY3_plain h
  · exact op_8XY4_plain h
  · exact op_8XY5_plain h
  · exact op_8XY6_plain h
  · exact op_8XY7_plain h
  · exact op_8XYE_plain h
  · simp at h
    subst h
    exact ⟨rfl, rfl, rfl⟩

theorem op_ANNN_plain {s t : Chip8} {n : Nat} (h : op_ANNN s n = some t) : Plain s t := by
  simp only [op_ANNN] at h
  simp at h
  subst h
  exact ⟨rfl, rfl, rfl⟩

theorem op_CXKK_plain {s t : Chip8} {x v r : Nat} (h : op_CXKK s x v r = some t) :
    Plain s t := by
  simp only [op_CXKK, rd, wr] at h
  split_ifs at h <;> simp at h <;> subst h <;> exact ⟨rfl, rfl, rfl⟩

theorem op_FX07_plain {s t : Chip8} {x : Nat} (h : op_FX07 s x = some t) : Plain s t := by
  simp only [op_FX07, rd, wr] at h
  split_ifs at h <;> simp at h <;> subst h <;> exact ⟨rfl, rfl, rfl⟩

theorem op_FX15_plain {s t : Chip8} {x : Nat} (h : op_FX15 s x = some t) : Plain s t := by
  simp only [op_FX15, rd, wr] at h
  split_ifs at h <;> simp at h <;> subst h <;> exact ⟨rfl, rfl, rfl⟩

theorem op_FX18_plain {s t : Chip8} {x : Nat} (h : op_FX18 s x = some t) : Plain s t := by
  simp only [op_FX18, rd, wr] at h
  split_ifs at h <;> simp at h <;> subst h <;> exact ⟨rfl, rfl, rfl⟩

theorem op_FX1E_plain {s t : Chip8} {x : Nat} (h : op_FX1E s x = some t) : Plain s t := by
  simp only [op_FX1E, rd, wr] at h
  split_ifs at h <;> simp at h <;> subst h <;> exact ⟨rfl, rfl, rfl⟩

theorem op_FX29_plain {s t : Chip8} {x : Nat} (h : op_FX29 s x = some t) : Plain s t := by
  simp only [op_FX29, rd, wr] at h
  split_ifs at h <;> simp at h <;> subst h <;> exact ⟨rfl, rfl, rfl⟩

theorem op_3XKK_skip {s t : Chip8} {x v : Nat} (h : op_3XKK s x v = some t) :
    (Plain s t ∧ ¬ s.V x = v) ∨ (Skipped s t ∧ s.V x = v) := by
  simp only [op_3XKK, rd] at h
  split_ifs at h with hx
  · simp at h
    split_ifs at h with hc
    · simp at h
      subst h
      exact Or.inr ⟨⟨rfl, rfl, rfl⟩, hc⟩
    · simp at h
      subst h
      exact Or.inl ⟨⟨rfl, rfl, rfl⟩, hc⟩
  · simp at h

theorem op_4XKK_skip {s t : Chip8} {x v : Nat} (h : op_4XKK s x v = some t) :
    (Plain s t ∧ s.V x = v) ∨ (Skipped s t ∧ ¬ s.V x = v) := by
  simp only [op_4XKK, rd] at h
  split_ifs at h with hx
  · simp at h
    split_ifs at h with hc
    · simp at h
      subst h
      exact Or.inl ⟨⟨rfl, rfl, rfl⟩, hc⟩
    · simp at h
      subst h
      exact Or.inr ⟨⟨rfl, rfl, rfl⟩, hc⟩
  · simp at h

theorem op_5XY0_skip {s t : Chip8} {x y : Nat} (h : op_5XY0 s x y = some t) :
    (Plain s t ∧ ¬ s.V x = s.V y) ∨ (Skipped s t ∧ s.V x = s.V y) := by
  simp only [op_5XY0, rd] at h
  split_ifs at h with hx hy
  · simp at h
    split_ifs at h with hc
    · simp at h
      subst h
      exact Or.inr ⟨⟨rfl, rfl, rfl⟩, hc⟩
    · simp at h
      subst h
      exact Or.inl ⟨⟨rfl, rfl, rfl⟩, hc⟩
  all_goals simp at h

theorem op_9XY0_skip {s t : Chip8} {x y : Nat} (h : op_9XY0 s x y = some t) :
    (Plain s t ∧ s.V x = s.V y) ∨ (Skipped s t ∧ ¬ s.V x = s.V y) := by
  simp only [op_9XY0, rd] at h
  split_ifs at h with hx hy
  · simp at h
    split_ifs at h with hc
    · simp at h
      subst h
      exact Or.inl ⟨⟨rfl, rfl, rfl⟩, hc⟩
    · simp at h
      subst h
      exact Or.inr ⟨⟨rfl, rfl, rfl⟩, hc⟩
  all_goals simp at h

theorem op_EX9E_skip {s t : Chip8} {x : Nat} (h : op_EX9E s x = some t) :
    (Plain s t ∧ s.keypad (s.V x) = 0) ∨ (Skipped s t ∧ ¬ s.keypad (s.V x) = 0) := by
  simp only [op_EX9E, rd] at h
  by_cases hx : x < 16
  · by_cases hv : s.V x < 16
    · by_cases hc : s.keypad (s.V x) = 0
      · simp [hx, hv, hc] at h
        subst h
        exact Or.inl ⟨⟨rfl, rfl, rfl⟩, hc⟩
      · simp [hx, hv, hc] at h
        subst h
        exact Or.inr ⟨⟨rfl, rfl, rfl⟩, hc⟩
    · simp [hx, hv] at h
  · simp [hx] at h

theorem op_EXA1_skip {s t : Chip8} {x : Nat} (h : op_EXA1 s x = some t) :
    (Plain s t ∧ ¬ s.keypad (s.V x) = 0) ∨ (Skipped s t ∧ s.keypad (s.V x) = 0) := by
  simp only [op_EXA1, rd] at h
  by_cases hx : x < 16
  · by_cases hv : s.V x < 16
    · by_cases hc : s.keypad (s.V x) = 0
      · simp [hx, hv, hc] at h
        subst h
        exact Or.inr ⟨⟨rfl, rfl, rfl⟩, hc⟩
      · simp [hx, hv, hc] at h
        subst h
        exact Or.inl ⟨⟨rfl, rfl, rfl⟩, hc⟩
    · simp [hx, hv] at h
  · simp [hx] at h

theorem forLoop_preserves {σ : Type} (body : Nat → σ → Option σ) (P : σ → Prop) :
    ∀ (n lo : Nat) (s t : σ),
      (∀ i u v, lo ≤ i → i < lo + n → body i u = some v → P u → P v) →
      forLoop body lo n s = some t → P s → P t := by
  intro n
  induction n with
  | zero =>
    intro lo s t _ h hP
    simp [forLoop] at h
    subst h
    exact hP
  | succ n ih =>
    intro lo s t hstep h hP
    simp only [forLoop] at h
    cases hb : body lo s with
    | none => simp [hb] at h
    | some u =>
      simp [hb] at h
      exact ih (lo + 1) u t (fun i a b h1 h2 => hstep i a b (by omega) (by omega)) h
        (hstep lo s u (Nat.le_refl lo) (by omega) hb hP)

theorem regXOf_lt (op : Nat) : regXOf op < 16 := by
  rw [regXOf_eq]
  omega

theorem op_00E0_effect {s t : Chip8} (h : op_00E0 s = some t) :
    t.memory = s.memory ∧ t.pc = s.pc ∧ ∀ i, t.gfx i = 0 := by
  simp [op_00E0] at h
  subst h
  exact ⟨rfl, rfl, fun _ => rfl⟩

theorem op_00EE_jumped {s t : Chip8} (h : op_00EE s = some t) : Jumped s t := by
  simp only [op_00EE, rd] at h
  split_ifs at h <;> simp at h
  subst h
  exact ⟨rfl, rfl⟩

theorem op_1NNN_jumped {s t : Chip8} {n : Nat} (h : op_1NNN s n = some t) : Jumped s t := by
  simp [op_1NNN] at h
  subst h
  exact ⟨rfl, rfl⟩

theorem op_2NNN_jumped {s t : Chip8} {n : Nat} (h : op_2NNN s n = some t) : Jumped s t := by
  simp only [op_2NNN, wr] at h
  split_ifs at h <;> simp at h
  subst h
  exact ⟨rfl, rfl⟩

theorem op_BNNN_jumped {s t : Chip8} {n : Nat} (h : op_BNNN s n = some t) : Jumped s t := by
  simp only [op_BNNN, rd] at h
  split_ifs at h <;> simp at h
  subst h
  exact ⟨rfl, rfl⟩

theorem drawPixel_preserves {xs ys row sprite col : Nat} {u v : Chip8}
    (h : drawPixel xs ys row sprite col u = some v) :
    v.memory = u.memory ∧ v.pc = u.pc ∧ v.I = u.I ∧ (GfxBinary u → GfxBinary v) := by
  obtain ⟨w, hw, _, hg, hk, _, _, _⟩ := drawPixel_toggles xs ys row sprite col u
  rw [hw] at h
  have e : w = v := Option.some.inj h
  subst e
  have hfr : frame w = frame u := by
    obtain ⟨w', hw', hfr, _⟩ := drawPixel_toggles xs ys row sprite col u
    rw [hw] at hw'
    have e' : w = w' := Option.some.inj hw'
    rw [e']
    exact hfr
  have h1 : w.memory = u.memory := by
    have := congrArg Chip8.memory hfr
    exact this
  have h2 : w.pc = u.pc := by
    have := congrArg Chip8.pc hfr
    exact this
  have h3 : w.I = u.I := by
    have := congrArg Chip8.I hfr
    exact this
  refine ⟨h1, h2, h3, ?_⟩
  intro hb i hi
  by_cases hH : sprite &&& (0x80 >>> col) ≠ 0 ∧ i = cellOf xs ys row col
  · rw [hg i hH]
    rcases hb i hi with h0 | h0 <;> rw [h0]
    · exact Or.inr rfl
    · exact Or.inl rfl
  · rw [hk i hH]
    exact hb i hi

theorem op_DXYN_effect {s t : Chip8} {x y : Nat} (h : op_DXYN s x y = some t) :
    t.memory = s.memory ∧ t.pc = s.pc ∧ (GfxBinary s → GfxBinary t) := by
  simp only [op_DXYN, rd, wr] at h
  by_cases hx : x < 16
  · by_cases hy : y < 16
    · cases hl : forLoop (drawRow (s.V x) (s.V y)) 0 (s.opcode &&& 0x000F)
          { s with V := setCell s.V 0xF 0 } with
      | none => simp [hx, hy, hl] at h
      | some u =>
      simp [hx, hy, hl] at h
      subst h
      have hp := forLoop_preserves (drawRow (s.V x) (s.V y))
        (fun w => w.memory = s.memory ∧ w.pc = s.pc ∧ (GfxBinary s → GfxBinary w))
        (s.opcode &&& 0x000F) 0 { s with V := setCell s.V 0xF 0 } u
        (by
          intro i a b _ _ hb ⟨ha1, ha2, ha3⟩
          simp only [drawRow, rd] at hb
          split_ifs at hb
          · simp at hb
            have hq := forLoop_preserves (drawPixel (s.V x) (s.V y) i (a.memory (a.I + i)))
              (fun w => w.memory = s.memory ∧ w.pc = s.pc ∧ (GfxBinary s → GfxBinary w))
              8 0 a b
              (by
                intro j c d _ _ hd ⟨hc1, hc2, hc3⟩
                obtain ⟨e1, e2, _, e4⟩ := drawPixel_preserves hd
                exact ⟨e1.trans hc1, e2.trans hc2, fun hs => e4 (hc3 hs)⟩)
              hb ⟨ha1, ha2, ha3⟩
            exact hq
          · simp at hb)
        hl ⟨rfl, rfl, fun hs => hs⟩
      exact hp
    · simp [hx, hy] at h
  · simp [hx] at h

theorem op_FX0A_effect {s t : Chip8} {x : Nat} (hx : x < 16) (h : op_FX0A s x = some t) :
    Plain s t ∨
      (Jumped s t ∧ t.pc = u16 ((s.pc : Int) - 2) ∧ ∀ j, j < 16 → s.keypad j = 0) := by
  obtain ⟨⟨u, b⟩, hl, hfr, hF, _⟩ := scanKeys_spec s x hx
  simp only [] at hfr hF
  simp only [op_FX0A, hl] at h
  cases b with
  | true =>
    simp at h
    subst h
    left
    rw [hfr]
    exact ⟨rfl, rfl, rfl⟩
  | false =>
    simp at h
    subst h
    right
    refine ⟨?_, ?_, (hF rfl).1⟩
    · rw [hfr]
      exact ⟨rfl, rfl⟩
    · show u16 ((u.pc : Int) - 2) = u16 ((s.pc : Int) - 2)
      rw [hfr]

theorem op_FX33_effect {s t : Chip8} {x : Nat} (h : op_FX33 s x = some t) :
    t.gfx = s.gfx ∧ t.pc = s.pc ∧
      ∀ a, (a < s.I ∨ s.I + 2 < a) → t.memory a = s.memory a := by
  simp only [op_FX33, rd, wr] at h
  split_ifs at h <;> simp at h
  subst h
  refine ⟨rfl, rfl, ?_⟩
  intro a ha
  have h0 : a ≠ s.I := by omega
  have h1 : a ≠ s.I + 1 := by omega
  have h2 : a ≠ s.I + 2 := by omega
  simp [setCell, h0, h1, h2]

theorem op_FX55_effect {s t : Chip8} {x : Nat} (h : op_FX55 s x = some t) :
    t.gfx = s.gfx ∧ t.pc = s.pc ∧
      ∀ a, (a < s.I ∨ s.I + x < a) → t.memory a = s.memory a := by
  have hp := forLoop_preserves storeReg
    (fun w => w.gfx = s.gfx ∧ w.pc = s.pc ∧ w.I = s.I ∧
      ∀ a, (a < s.I ∨ s.I + x < a) → w.memory a = s.memory a)
    (x + 1) 0 s t
    (by
      intro i u v _ hi hb ⟨h1, h2, h3, h4⟩
      simp only [storeReg, rd, wr] at hb
      split_ifs at hb <;> simp at hb
      subst hb
      refine ⟨h1, h2, h3, ?_⟩
      intro a ha
      have hne : a ≠ u.I + i := by
        rw [h3]
        omega
      simp only [setCell, if_neg hne]
      exact h4 a ha)
    h ⟨rfl, rfl, rfl, fun _ _ => rfl⟩
  exact ⟨hp.1, hp.2.1, hp.2.2.2⟩

theorem op_FX65_plain {s t : Chip8} {x : Nat} (h : op_FX65 s x = some t) : Plain s t := by
  have hp := forLoop_preserves loadReg (fun w => Plain s w) (x + 1) 0 s t
    (by
      intro i u v _ _ hb ⟨h1, h2, h3⟩
      simp only [loadReg, rd, wr] at hb
      split_ifs at hb <;> simp at hb
      subst hb
      exact ⟨h1, h2, h3⟩)
    h ⟨rfl, rfl, rfl⟩
  exact hp

theorem plain_refl {s t : Chip8} (h : some s = some t) : Plain s t := by
  have e : s = t := Option.some.inj h
  subst e
  exact ⟨rfl, rfl, rfl⟩

theorem execute_effect {s t : Chip8} {rnd : Nat} (h : execute s rnd = some t) :
    Effect s t := by
  simp only [execute] at h
  by_cases c0 : s.opcode &&& 0xF000 = 0x000
  · rw [if_pos c0] at h
    by_cases cE0 : s.opcode &&& 0x0FF = 0x00E0
    · rw [if_pos cE0] at h
      obtain ⟨a, b, c⟩ := op_00E0_effect h
      exact Effect.cls c0 a b c
    · rw [if_neg cE0] at h
      by_cases cEE : s.opcode &&& 0x0FF = 0x00EE
      · rw [if_pos cEE] at h
        exact Effect.jump (Or.inr (Or.inr (Or.inr ⟨c0, cEE⟩))) (op_00EE_jumped h)
      · rw [if_neg cEE] at h
        exact Effect.plain (plain_refl h)
  rw [if_neg c0] at h
  by_cases c1 : s.opcode &&& 0xF000 = 0x1000
  · rw [if_pos c1] at h
    exact Effect.jump (Or.inl c1) (op_1NNN_jumped h)
  rw [if_neg c1] at h
  by_cases c2 : s.opcode &&& 0xF000 = 0x2000
  · rw [if_pos c2] at h
    exact Effect.jump (Or.inr (Or.inl c2)) (op_2NNN_jumped h)
  rw [if_neg c2] at h
  by_cases c3 : s.opcode &&& 0xF000 = 0x3000
  · rw [if_pos c3] at h
    rcases op_3XKK_skip h with ⟨hp, _⟩ | ⟨hs, hc⟩
    · exact Effect.plain hp
    · exact Effect.skip hs (Or.inl ⟨c3, hc⟩)
  rw [if_neg c3] at h
  by_cases c4 : s.opcode &&& 0xF000 = 0x4000
  · rw [if_pos c4] at h
    rcases op_4XKK_skip h with ⟨hp, _⟩ | ⟨hs, hc⟩
    · exact Effect.plain hp
    · exact Effect.skip hs (Or.inr (Or.inl ⟨c4, hc⟩))
  rw [if_neg c4] at h
  by_cases c5 : s.opcode &&& 0xF000 = 0x5000
  · rw [if_pos c5] at h
    rcases op_5XY0_skip h with ⟨hp, _⟩ | ⟨hs, hc⟩
    · exact Effect.plain hp
    · exact Effect.skip hs (Or.inr (Or.inr (Or.inl ⟨c5, hc⟩)))
  rw [if_neg c5] at h
  by_cases c6 : s.opcode &&& 0xF000 = 0x6000
  · rw [if_pos c6] at h
    exact Effect.plain (op_6XKK_plain h)
  rw [if_neg c6] at h
  by_cases c7 : s.opcode &&& 0xF000 = 0x7000
  · rw [if_pos c7] at h
    exact Effect.plain (op_7XKK_plain h)
  rw [if_neg c7] at h
  by_cases c8 : s.opcode &&& 0xF000 = 0x8000
  · rw [if_pos c8] at h
    exact Effect.plain (op_8XYN_plain h)
  rw [if_neg c8] at h
  by_cases c9 : s.opcode &&& 0xF000 = 0x9000
  · rw [if_pos c9] at h
    rcases op_9XY0_skip h with ⟨hp, _⟩ | ⟨hs, hc⟩
    · exact Effect.plain hp
    · exact Effect.skip hs (Or.inr (Or.inr (Or.inr (Or.inl ⟨c9, hc⟩))))
  rw [if_neg c9] at h
  by_cases cA : s.opcode &&& 0xF000 = 0xA000
  · rw [if_pos cA] at h
    exact Effect.plain (op_ANNN_plain h)
  rw [if_neg cA] at h
  by_cases cB : s.opcode &&& 0xF000 = 0xB000
  · rw [if_pos cB] at h
    exact Effect.jump (Or.inr (Or.inr (Or.inl cB))) (op_BNNN_jumped h)
  rw [if_neg cB] at h
  by_cases cC : s.opcode &&& 0xF000 = 0xC000
  · rw [if_pos cC] at h
    exact Effect.plain (op_CXKK_plain h)
  rw [if_neg cC] at h
  by_cases cD : s.opcode &&& 0xF000 = 0xD000
  · rw [if_pos cD] at h
    obtain ⟨a, b, c⟩ := op_DXYN_effect h
    exact Effect.draw cD a b c
  rw [if_neg cD] at h
  by_cases cE : s.opcode &&& 0xF000 = 0xE000
  · rw [if_pos cE] at h
    by_cases v9E : valOf s.opcode = 0x9E
    · rw [if_pos v9E] at h
      rcases op_EX9E_skip h with ⟨hp, _⟩ | ⟨hs, hc⟩
      · exact Effect.plain hp
      · exact Effect.skip hs (Or.inr (Or.inr (Or.inr (Or.inr (Or.inl ⟨cE, v9E, hc⟩)))))
    rw [if_neg v9E] at h
    by_cases vA1 : valOf s.opcode = 0xA1
    · rw [if_pos vA1] at h
      rcases op_EXA1_skip h with ⟨hp, _⟩ | ⟨hs, hc⟩
      · exact Effect.plain hp
      · exact Effect.skip hs (Or.inr (Or.inr (Or.inr (Or.inr (Or.inr ⟨cE, vA1, hc⟩)))))
    rw [if_neg vA1] at h
    exact Effect.plain (plain_refl h)
  rw [if_neg cE] at h
  by_cases cF : s.opcode &&& 0xF000 = 0xF000
  · rw [if_pos cF] at h
    by_cases v07 : valOf s.opcode = 0x07
    · rw [if_pos v07] at h
      exact Effect.plain (op_FX07_plain h)
    rw [if_neg v07] at h
    by_cases v0A : valOf s.opcode = 0x0A
    · rw [if_pos v0A] at h
      rcases op_FX0A_effect (regXOf_lt s.opcode) h with hp | ⟨hj, hpc, hk⟩
      · exact Effect.plain hp
      · exact Effect.wait cF v0A hj hpc hk
    rw [if_neg v0A] at h
    by_cases v15 : valOf s.opcode = 0x15
    · rw [if_pos v15] at h
      exact Effect.plain (op_FX15_plain h)
    rw [if_neg v15] at h
    by_cases v18 : valOf s.opcode = 0x18
    · rw [if_pos v18] at h
      exact Effect.plain (op_FX18_plain h)
    rw [if_neg v18] at h
    by_cases v1E : valOf s.opcode = 0x1E
    · rw [if_pos v1E] at h
      exact Effect.plain (op_FX1E_plain h)
    rw [if_neg v1E] at h
    by_cases v29 : valOf s.opcode = 0x29
    · rw [if_pos v29] at h
      exact Effect.plain (op_FX29_plain h)
    rw [if_neg v29] at h
    by_cases v33 : valOf s.opcode = 0x33
    · rw [if_pos v33] at h
      obtain ⟨a, b, c⟩ := op_FX33_effect h
      exact Effect.bcd cF v33 a b c
    rw [if_neg v33] at h
    by_cases v55 : valOf s.opcode = 0x55
    · rw [if_pos v55] at h
      obtain ⟨a, b, c⟩ := op_FX55_effect h
      exact Effect.store cF v55 a b c
    rw [if_neg v55] at h
    by_cases v65 : valOf s.opcode = 0x65
    · rw [if_pos v65] at h
      exact Effect.plain (op_FX65_plain h)
    rw [if_neg v65] at h
    exact Effect.plain (plain_refl h)
  rw [if_neg cF] at h
  exact Effect.plain (plain_refl h)

theorem emulateCycle_effect {s t : Chip8} {op rnd : Nat} (hf : fetch s = some op)
    (hc : emulateCycle s rnd = some t) :
    Effect { s with opcode := op, pc := s.pc + 2 } t := by
  have hpc := fetch_pc_lt hf
  have hpc2 : (s.pc + 2) % 65536 = s.pc + 2 := by omega
  rw [emulateCycle_of_fetch rnd hf, hpc2] at hc
  exact execute_effect hc

theorem emulateCycle_fetch {s t : Chip8} {rnd : Nat} (hc : emulateCycle s rnd = some t) :
    ∃ op, fetch s = some op := by
  cases hf : fetch s with
  | none => simp [emulateCycle, hf] at hc
  | some op => exact ⟨op, rfl⟩

theorem updateTimers_gfx (s : Chip8) : (updateTimers s).1.gfx = s.gfx := by
  rcases s with ⟨gfx, df, kp, pc, opc, I, sp, V, stk, mem, dt, st, ib⟩
  cases ib <;> rcases Nat.eq_zero_or_pos st with h0 | h0 <;>
    rcases Nat.eq_zero_or_pos dt with hd0 | hd0
  all_goals
    first
    | subst h0
      first
      | subst hd0
        simp [updateTimers, stopBeep, startBeep]
      | simp [updateTimers, stopBeep, startBeep, hd0]
    | have hne : st ≠ 0 := Nat.pos_iff_ne_zero.mp h0
      first
      | subst hd0
        simp [updateTimers, stopBeep, startBeep, h0, hne]
      | simp [updateTimers, stopBeep, startBeep, h0, hne, hd0]

theorem keyEvent_gfx {s t : Chip8} {sym : Int} {down : Bool}
    (h : keyEvent s sym down = some t) : t.gfx = s.gfx := by
  simp only [keyEvent, wr] at h
  split_ifs at h <;> simp at h <;> subst h <;> rfl

theorem emulateCycle_gfxBinary {s t : Chip8} {rnd : Nat} (hb : GfxBinary s)
    (hc : emulateCycle s rnd = some t) : GfxBinary t := by
  obtain ⟨op, hf⟩ := emulateCycle_fetch hc
  have he := emulateCycle_effect hf hc
  have keep : t.gfx = s.gfx → GfxBinary t := by
    intro e i hi
    rw [e]
    exact hb i hi
  cases he with
  | plain h => exact keep h.2.1
  | cls _ _ _ hg => exact fun i _ => Or.inl (hg i)
  | jump _ h => exact keep h.2
  | skip h _ => exact keep h.2.1
  | draw _ _ _ hg => exact hg hb
  | wait _ _ h _ _ => exact keep h.2
  | bcd _ _ hg _ _ => exact keep hg
  | store _ _ hg _ _ => exact keep hg

/-- Writes to memory: a cycle that completes on a word other than FX33 and FX55 leaves
every memory byte unchanged; FX33 changes at most `memory[I..I+2]`
and FX55 at most `memory[I..I+x]`; hence a byte that differs after a cycle, be it of the
font or of the program, lies in the range stored to by an FX33 or FX55. -/
theorem memory_writes (s t : Chip8) (op rnd : Nat) (hf : fetch s = some op)
    (hc : emulateCycle s rnd = some t) :
    (¬ (op &&& 0xF000 = 0xF000 ∧ (valOf op = 0x33 ∨ valOf op = 0x55)) →
        ∀ a, a < 4096 → t.memory a = s.memory a) ∧
      (op &&& 0xF000 = 0xF000 → valOf op = 0x33 →
        ∀ a, (a < s.I ∨ s.I + 2 < a) → t.memory a = s.memory a) ∧
      (op &&& 0xF000 = 0xF000 → valOf op = 0x55 →
        ∀ a, (a < s.I ∨ s.I + regXOf op < a) → t.memory a = s.memory a) ∧
      (∀ a, t.memory a ≠ s.memory a →
        op &&& 0xF000 = 0xF000 ∧
          ((valOf op = 0x33 ∧ s.I ≤ a ∧ a ≤ s.I + 2) ∨
           (valOf op = 0x55 ∧ s.I ≤ a ∧ a ≤ s.I + regXOf op))) := by
  have he := emulateCycle_effect hf hc
  have same : t.memory = s.memory →
      (¬ (op &&& 0xF000 = 0xF000 ∧ (valOf op = 0x33 ∨ valOf op = 0x55)) →
        ∀ a, a < 4096 → t.memory a = s.memory a) ∧
      (op &&& 0xF000 = 0xF000 → valOf op = 0x33 →
        ∀ a, (a < s.I ∨ s.I + 2 < a) → t.memory a = s.memory a) ∧
      (op &&& 0xF000 = 0xF000 → valOf op = 0x55 →
        ∀ a, (a < s.I ∨ s.I + regXOf op < a) → t.memory a = s.memory a) ∧
      (∀ a, t.memory a ≠ s.memory a →
        op &&& 0xF000 = 0xF000 ∧
          ((valOf op = 0x33 ∧ s.I ≤ a ∧ a ≤ s.I + 2) ∨
           (valOf op = 0x55 ∧ s.I ≤ a ∧ a ≤ s.I + regXOf op))) := by
    intro e
    refine ⟨fun _ a _ => by rw [e], fun _ _ a _ => by rw [e], fun _ _ a _ => by rw [e], ?_⟩
    intro a ha
    rw [e] at ha
    exact absurd rfl ha
  cases he with
  | plain h => exact same h.1
  | cls _ hm _ _ => exact same hm
  | jump _ h => exact same h.1
  | skip h _ => exact same h.1
  | draw _ hm _ _ => exact same hm
  | wait _ _ h _ _ => exact same h.1
  | bcd hop hv _ _ hm =>
    have hop' : op &&& 0xF000 = 0xF000 := hop
    have hv' : valOf op = 0x33 := hv
    have hm' : ∀ a, (a < s.I ∨ s.I + 2 < a) → t.memory a = s.memory a := hm
    refine ⟨?_, fun _ _ => hm', ?_, ?_⟩
    · intro hn
      exact absurd ⟨hop', Or.inl hv'⟩ hn
    · intro _ h55
      rw [hv'] at h55
      exact absurd h55 (by decide)
    · intro a ha
      refine ⟨hop', Or.inl ⟨hv', ?_⟩⟩
      by_contra hr
      exact ha (hm' a (by omega))
  | store hop hv _ _ hm =>
    have hop' : op &&& 0xF000 = 0xF000 := hop
    have hv' : valOf op = 0x55 := hv
    have hm' : ∀ a, (a < s.I ∨ s.I + regXOf op < a) → t.memory a = s.memory a := hm
    refine ⟨?_, ?_, fun _ _ => hm', ?_⟩
    · intro hn
      exact absurd ⟨hop', Or.inr hv'⟩ hn
    · intro _ h33
      rw [hv'] at h33
      exact absurd h33 (by decide)
    · intro a ha
      refine ⟨hop', Or.inr ⟨hv', ?_⟩⟩
      by_contra hr
      exact ha (hm' a (by omega))

/-- Instance of `memory_writes` with the word `F255` and `I = 0x300`: the cycle completes
and every byte outside `memory[0x300..0x302]` is unchanged. -/
theorem memory_writes_witness :
    ∃ t, emulateCycle storeState 0 = some t ∧
      ∀ a, (a < storeState.I ∨ storeState.I + regXOf 0xF255 < a) →
        t.memory a = storeState.memory a := by
  cases h : emulateCycle storeState 0 with
  | none =>
    have hs : (emulateCycle storeState 0).isSome = true := rfl
    rw [h] at hs
    exact absurd hs (by decide)
  | some t => exact ⟨t, rfl, (memory_writes storeState t 0xF255 0 rfl h).2.2.1 rfl rfl⟩

/-- Movement of `pc`: a cycle that completes on a word whose top nibble is not 1, 2 or
B and which is not dispatched as RET (top nibble 0 with low byte `0xEE`) changes `pc` by
0, 2 or 4; by 0 only for FX0A with no key pressed, by 4 only for a skip (3XKK, 4XKK, 5XYn,
9XYn, EX9E, EXA1) whose condition holds; so an even `pc` stays even. -/
theorem pc_movement (s t : Chip8) (op rnd : Nat) (hf : fetch s = some op)
    (hc : emulateCycle s rnd = some t)
    (h1 : op &&& 0xF000 ≠ 0x1000) (h2 : op &&& 0xF000 ≠ 0x2000)
    (hB : op &&& 0xF000 ≠ 0xB000)
    (hret : ¬ (op &&& 0xF000 = 0x000 ∧ op &&& 0x0FF = 0x00EE)) :
    (t.pc = s.pc ∨ t.pc = s.pc + 2 ∨ t.pc = s.pc + 4) ∧
      (t.pc = s.pc →
        op &&& 0xF000 = 0xF000 ∧ valOf op = 0x0A ∧ ∀ j, j < 16 → s.keypad j = 0) ∧
      (t.pc = s.pc + 4 → TakenSkip s op) ∧
      (s.pc % 2 = 0 → t.pc % 2 = 0) := by
  have hpc := fetch_pc_lt hf
  have he := emulateCycle_effect hf hc
  have hback : u16 (((s.pc + 2 : Nat) : Int) - 2) = s.pc := by
    unfold u16
    omega
  have two : t.pc = s.pc + 2 →
      (t.pc = s.pc ∨ t.pc = s.pc + 2 ∨ t.pc = s.pc + 4) ∧
      (t.pc = s.pc →
        op &&& 0xF000 = 0xF000 ∧ valOf op = 0x0A ∧ ∀ j, j < 16 → s.keypad j = 0) ∧
      (t.pc = s.pc + 4 → TakenSkip s op) ∧
      (s.pc % 2 = 0 → t.pc % 2 = 0) := by
    intro e
    refine ⟨Or.inr (Or.inl e), ?_, ?_, ?_⟩
    · intro h
      omega
    · intro h
      omega
    · intro h
      omega
  cases he with
  | plain h => exact two h.2.2
  | cls _ _ hp _ => exact two hp
  | jump hop _ =>
    rcases hop with h | h | h | h
    · exact absurd h h1
    · exact absurd h h2
    · exact absurd h hB
    · exact absurd h hret
  | skip h hk =>
    have hp : t.pc = s.pc + 4 := by
      have := h.2.2
      simp only [] at this
      omega
    refine ⟨Or.inr (Or.inr hp), ?_, fun _ => hk, ?_⟩
    · intro h0
      omega
    · intro h0
      omega
  | draw _ _ hp _ => exact two hp
  | wait hop hv _ hp hk =>
    have hp0 : t.pc = s.pc := by
      rw [hp]
      exact hback
    refine ⟨Or.inl hp0, fun _ => ⟨hop, hv, hk⟩, ?_, ?_⟩
    · intro h4
      omega
    · intro h0
      omega
  | bcd _ _ _ hp _ => exact two hp
  | store _ _ _ hp _ => exact two hp

/-- Instance of `pc_movement` with the word `5011`: the cycle completes, `pc` moves by 0, 2
or 4 and stays even. -/
theorem pc_movement_witness :
    ∃ t, emulateCycle skipEqState 0 = some t ∧
      (t.pc = skipEqState.pc ∨ t.pc = skipEqState.pc + 2 ∨ t.pc = skipEqState.pc + 4) ∧
      (skipEqState.pc % 2 = 0 → t.pc % 2 = 0) := by
  cases h : emulateCycle skipEqState 0 with
  | none =>
    have hs : (emulateCycle skipEqState 0).isSome = true := rfl
    rw [h] at hs
    exact absurd hs (by decide)
  | some t =>
    have hm := pc_movement skipEqState t 0x5011 0 rfl h (by decide) (by decide) (by decide)
      (by decide)
    exact ⟨t, rfl, hm.1, hm.2.2.2⟩

/-! ## The claims -/

/-- C1. DXYN pixel semantics: from a state whose framebuffer cells are 0 or 1, with
`I + n ≤ 4096` and the word DXYN at `pc`, the cycle completes; the cell `(px, py)` is its
old value XOR 1 when some row `r < n` and column `c < 8` has bit `0x80 >> c` of
`memory[I + r]` set with `px = (V[x] + c) mod 64` and `py = (V[y] + r) mod 32`, and keeps
its old value otherwise; `I` and `memory` are unchanged and `drawFlag` is true; with
`n = 0` or all-zero sprite bytes the framebuffer is unchanged. -/
theorem draw_pixels (s : Chip8) (x y n rnd : Nat) (hx : x < 16) (hy : y < 16) (hn : n < 16)
    (hgfx : ∀ i, i < 2048 → s.gfx i = 0 ∨ s.gfx i = 1) (hI : s.I + n ≤ 4096)
    (hf : fetch s = some (0xD000 + 256 * x + 16 * y + n)) :
    ∃ s', emulateCycle s rnd = some s' ∧
      (∀ px py, px < 64 → py < 32 →
        ((∃ r c, r < n ∧ c < 8 ∧ s.memory (s.I + r) &&& (0x80 >>> c) ≠ 0 ∧
            px = (s.V x + c) % 64 ∧ py = (s.V y + r) % 32) →
          s'.gfx (py * 64 + px) = s.gfx (py * 64 + px) ^^^ 1) ∧
        (¬ (∃ r c, r < n ∧ c < 8 ∧ s.memory (s.I + r) &&& (0x80 >>> c) ≠ 0 ∧
            px = (s.V x + c) % 64 ∧ py = (s.V y + r) % 32) →
          s'.gfx (py * 64 + px) = s.gfx (py * 64 + px))) ∧
      s'.I = s.I ∧ s'.memory = s.memory ∧ s'.drawFlag = true ∧
      ((n = 0 ∨ ∀ r, r < n → s.memory (s.I + r) = 0) →
        ∀ i, i < 2048 → s'.gfx i = s.gfx i) := by
  obtain ⟨t, hc, hfr, hg, hk, _, _, _⟩ := draw_cycle s x y n rnd hx hy hn hI hf
  have hmem : t.memory = s.memory := by
    have := congrArg Chip8.memory hfr
    exact this
  have hII : t.I = s.I := by
    have := congrArg Chip8.I hfr
    exact this
  refine ⟨_, hc, ?_, hII, hmem, rfl, ?_⟩
  · intro px py hpx hpy
    constructor
    · rintro ⟨r, c, hr, hcc, hb, hpxe, hpye⟩
      have hH : ∃ r c, r < n ∧ c < 8 ∧ s.memory (s.I + r) &&& (0x80 >>> c) ≠ 0 ∧
          py * 64 + px = cellOf (s.V x) (s.V y) r c :=
        ⟨r, c, hr, hcc, hb, by simp only [cellOf, SCREEN_H, SCREEN_W]; omega⟩
      have h1 := hg _ hH
      show t.gfx (py * 64 + px) = _
      rw [h1]
      show (s.gfx (py * 64 + px) ^^^ 1) % 256 = _
      rcases hgfx (py * 64 + px) (by omega) with h0 | h0 <;> rw [h0] <;> rfl
    · intro hno
      have hH : ¬ ∃ r c, r < n ∧ c < 8 ∧ s.memory (s.I + r) &&& (0x80 >>> c) ≠ 0 ∧
          py * 64 + px = cellOf (s.V x) (s.V y) r c := by
        rintro ⟨r, c, hr, hcc, hb, he⟩
        apply hno
        simp only [cellOf, SCREEN_H, SCREEN_W] at he
        exact ⟨r, c, hr, hcc, hb, by omega, by omega⟩
      exact hk _ hH
  · intro hz i _
    apply hk
    rintro ⟨r, c, hr, _, hb, _⟩
    rcases hz with hz | hz
    · omega
    · rw [hz r hr] at hb
      simp at hb

/-- Instance of C1 on the draw scenario `D011` with `V[0] = 63`, `V[1] = 31`: the pixel at
`(63, 31)` is lit, the pixel at `(0, 0)` stays dark. -/
theorem draw_pixels_witness :
    ∃ s', emulateCycle drawState 0 = some s' ∧ s'.gfx (31 * 64 + 63) = 1 ∧
      s'.gfx (0 * 64 + 0) = 0 ∧ s'.drawFlag = true := by
  obtain ⟨s', h, hpix, _, _, hflag, _⟩ := draw_pixels drawState 0 1 1 0 (by decide)
    (by decide) (by decide) (fun _ _ => Or.inl rfl) (by decide) rfl
  refine ⟨s', h, ?_, ?_, hflag⟩
  · exact (hpix 63 31 (by decide) (by decide)).1
      ⟨0, 0, by decide, by decide, by decide, by decide, by decide⟩
  · refine (hpix 0 0 (by decide) (by decide)).2 ?_
    rintro ⟨r, c, hr, hc, hb, hx, _⟩
    have hr0 : r = 0 := by omega
    have hc1 : c = 1 := by
      have : drawState.V 0 = 63 := rfl
      omega
    subst hr0
    subst hc1
    exact hb (by decide)

/-- C2. DXYN collision flag: for all register fields `x`, `y` (`0xF` included), after the
cycle `V[0xF]` is 1 when some framebuffer cell was 1 before the draw and is 0 after it, and
0 otherwise; the cells toggled are those computed from the values `V[x]`, `V[y]` held
before `V[0xF]` is cleared. -/
theorem draw_collision (s : Chip8) (x y n rnd : Nat) (hx : x < 16) (hy : y < 16)
    (hn : n < 16) (hI : s.I + n ≤ 4096)
    (hf : fetch s = some (0xD000 + 256 * x + 16 * y + n)) :
    ∃ s', emulateCycle s rnd = some s' ∧
      ((∃ i, i < 2048 ∧ s.gfx i = 1 ∧ s'.gfx i = 0) → s'.V 0xF = 1) ∧
      (¬ (∃ i, i < 2048 ∧ s.gfx i = 1 ∧ s'.gfx i = 0) → s'.V 0xF = 0) ∧
      (∀ r c, r < n → c < 8 → s.memory (s.I + r) &&& (0x80 >>> c) ≠ 0 →
        s'.gfx (((s.V y + r) % 32) * 64 + (s.V x + c) % 64)
          = (s.gfx (((s.V y + r) % 32) * 64 + (s.V x + c) % 64) ^^^ 1) % 256) := by
  obtain ⟨t, hc, _, hg, hk, _, hone, hzero⟩ := draw_cycle s x y n rnd hx hy hn hI hf
  refine ⟨_, hc, ?_, ?_, ?_⟩
  · rintro ⟨i, _, h1, h0⟩
    apply hone
    refine ⟨i, ?_, h1⟩
    by_contra hH
    have : t.gfx i = s.gfx i := hk i hH
    have h0' : t.gfx i = 0 := h0
    omega
  · intro hno
    have hz := hzero (by
      rintro ⟨j, hH, hj1⟩
      apply hno
      have hj1' : s.gfx j = 1 := hj1
      have hlt : j < 2048 := by
        obtain ⟨r, c, _, _, _, he⟩ := hH
        simp only [cellOf, SCREEN_H, SCREEN_W] at he
        omega
      refine ⟨j, hlt, hj1', ?_⟩
      show t.gfx j = 0
      rw [hg j hH]
      show (s.gfx j ^^^ 1) % 256 = 0
      rw [hj1']
      rfl)
    show t.V 0xF = 0
    rw [hz]
    simp [setCell]
  · intro r c hr hcc hb
    exact hg _ ⟨r, c, hr, hcc, hb, rfl⟩

/-- Instance of C2 on the draw scenario with the target pixel already lit: the pixel goes
dark and the flag is raised. -/
theorem draw_collision_witness :
    ∃ s', emulateCycle drawStateLit 0 = some s' ∧ s'.gfx 2047 = 0 ∧ s'.V 0xF = 1 := by
  obtain ⟨s', h, hone, _, hcell⟩ := draw_collision drawStateLit 0 1 1 0 (by decide)
    (by decide) (by decide) (by decide) rfl
  have hg : s'.gfx 2047 = 0 := hcell 0 0 (by decide) (by decide) (by decide)
  exact ⟨s', h, hg, hone ⟨2047, by decide, rfl, hg⟩⟩

/-- C3. Reset postcondition: after `init`, `pc = 0x200`, `I = 0`, `sp = 0`, the registers,
the stack, the keypad, the framebuffer and both timers are zero, `memory[0x050 + i]` is
byte `i` of the 80-byte font table, and every other memory byte is zero. -/
theorem init_post (s : Chip8) :
    (init s).pc = 0x200 ∧ (init s).I = 0 ∧ (init s).sp = 0 ∧
      (∀ i, i < 16 → (init s).V i = 0) ∧
      (∀ i, i < 16 → (init s).stack i = 0) ∧
      (∀ i, i < 16 → (init s).keypad i = 0) ∧
      (∀ i, i < 2048 → (init s).gfx i = 0) ∧
      (init s).delay_timer = 0 ∧ (init s).sound_timer = 0 ∧
      fontset.length = 80 ∧
      (∀ i, i < 80 → (init s).memory (0x050 + i) = fontset.getD i 0) ∧
      (∀ a, a < 4096 → (a < 0x050 ∨ 0x09F < a) → (init s).memory a = 0) := by
  refine ⟨rfl, rfl, rfl, fun _ _ => rfl, fun _ _ => rfl, fun _ _ => rfl, fun _ _ => rfl,
    rfl, rfl, rfl, ?_, ?_⟩
  · intro i hi
    rw [init_memory, if_pos ⟨by omega, by omega⟩]
    simp
  · intro a _ ha
    rw [init_memory, if_neg (by omega)]

/-- C4. Loader success: for an image of length `L` with `1 ≤ L ≤ 3584` that the host opens
and delivers in full, `loadApplication` returns true; afterwards `memory[0x200 + i]` is
byte `i` of the image, the font sits at `0x050..0x09F`, every other memory byte is zero,
and every other field has its reset value, whatever the state before the call. -/
theorem load_success (s : Chip8) (f : HostFile) (hopen : f.is_open = true)
    (hL1 : 1 ≤ f.bytes.length) (hL2 : f.bytes.length ≤ 3584)
    (hread : f.bytes.length ≤ f.delivered) :
    (loadApplication s f).1 = true ∧
      (∀ i, i < f.bytes.length → (loadApplication s f).2.memory (0x200 + i) = f.bytes.getD i 0) ∧
      (∀ i, i < 80 → (loadApplication s f).2.memory (0x050 + i) = fontset.getD i 0) ∧
      (∀ a, a < 4096 → (a < 0x050 ∨ 0x09F < a) → (a < 0x200 ∨ 0x200 + f.bytes.length ≤ a) →
        (loadApplication s f).2.memory a = 0) ∧
      (loadApplication s f).2 = { init s with memory := (loadApplication s f).2.memory } ∧
      (loadApplication s f).2.pc = 0x200 ∧ (loadApplication s f).2.I = 0 ∧
      (loadApplication s f).2.sp = 0 ∧
      (∀ i, i < 16 → (loadApplication s f).2.V i = 0) ∧
      (∀ i, i < 16 → (loadApplication s f).2.stack i = 0) ∧
      (∀ i, i < 16 → (loadApplication s f).2.keypad i = 0) ∧
      (∀ i, i < 2048 → (loadApplication s f).2.gfx i = 0) ∧
      (loadApplication s f).2.delay_timer = 0 ∧ (loadApplication s f).2.sound_timer = 0 := by
  have hsz : ¬ (f.bytes.length ≤ 0 ∨ f.bytes.length > 4096 - 0x200) := by omega
  have hnf : ¬ f.delivered < f.bytes.length := by omega
  have hmin : min f.delivered f.bytes.length = f.bytes.length := by omega
  have h : loadApplication s f =
      (true, { init s with memory := fileRead (init s).memory 0x200 f f.bytes.length }) := by
    simp only [loadApplication, hopen, Bool.not_true, Bool.false_eq_true, if_false,
      if_neg hsz, if_neg hnf]
  rw [h]
  refine ⟨rfl, ?_, ?_, ?_, rfl, rfl, rfl, rfl, fun _ _ => rfl, fun _ _ => rfl,
    fun _ _ => rfl, fun _ _ => rfl, rfl, rfl⟩
  · intro i hi
    show fileRead (init s).memory 0x200 f f.bytes.length (0x200 + i) = _
    unfold fileRead
    rw [if_pos ⟨by omega, by omega⟩]
    simp
  · intro i hi
    show fileRead (init s).memory 0x200 f f.bytes.length (0x050 + i) = _
    unfold fileRead
    rw [if_neg (by omega), init_memory, if_pos ⟨by omega, by omega⟩]
    simp
  · intro a _ ha hb
    show fileRead (init s).memory 0x200 f f.bytes.length a = _
    unfold fileRead
    rw [if_neg (by omega), init_memory, if_neg (by omega)]

/-- Instance of C4 on a two-byte image. -/
theorem load_success_witness :
    (loadApplication drawStateLit romFile).1 = true ∧
      (loadApplication drawStateLit romFile).2.memory 0x200 = 0x12 ∧
      (loadApplication drawStateLit romFile).2.memory 0x201 = 0x34 ∧
      (loadApplication drawStateLit romFile).2.memory 0x300 = 0 ∧
      (loadApplication drawStateLit romFile).2.gfx 2047 = 0 := by
  have h := load_success drawStateLit romFile rfl (by decide) (by decide) (by decide)
  exact ⟨h.1, h.2.1 0 (by decide), h.2.1 1 (by decide),
    h.2.2.2.1 0x300 (by decide) (by decide) (by decide),
    h.2.2.2.2.2.2.2.2.2.2.2.1 2047 (by decide)⟩

/-- C5. Loader failure: for an image of length 0 or of length above 3584,
`loadApplication` returns false and leaves exactly the reset state, whatever the state
before the call: `pc = 0x200`, `I = 0`, `sp = 0`, the registers, the stack, the keypad, the
framebuffer and both timers zero, the font at `0x050..0x09F` and every other memory byte
zero, so that no byte of the image is in memory. -/
theorem load_failure (s : Chip8) (f : HostFile)
    (hL : f.bytes.length = 0 ∨ 3584 < f.bytes.length) :
    (loadApplication s f).1 = false ∧
      (loadApplication s f).2.pc = 0x200 ∧ (loadApplication s f).2.I = 0 ∧
      (loadApplication s f).2.sp = 0 ∧
      (∀ i, i < 16 → (loadApplication s f).2.V i = 0) ∧
      (∀ i, i < 16 → (loadApplication s f).2.stack i = 0) ∧
      (∀ i, i < 16 → (loadApplication s f).2.keypad i = 0) ∧
      (∀ i, i < 2048 → (loadApplication s f).2.gfx i = 0) ∧
      (loadApplication s f).2.delay_timer = 0 ∧ (loadApplication s f).2.sound_timer = 0 ∧
      (∀ i, i < 80 → (loadApplication s f).2.memory (0x050 + i) = fontset.getD i 0) ∧
      (∀ a, a < 4096 → (a < 0x050 ∨ 0x09F < a) → (loadApplication s f).2.memory a = 0) ∧
      (∀ i, i < f.bytes.length → 0x200 + i < 4096 →
        (loadApplication s f).2.memory (0x200 + i) = 0) ∧
      loadApplication s f = (false, init s) := by
  have hsz : f.bytes.length ≤ 0 ∨ f.bytes.length > 4096 - 0x200 := by omega
  have h : loadApplication s f = (false, init s) := by
    unfold loadApplication
    by_cases ho : f.is_open = true
    · simp only [ho, Bool.not_true, Bool.false_eq_true, if_false, if_pos hsz]
    · simp [ho]
  rw [h]
  refine ⟨rfl, rfl, rfl, rfl, fun _ _ => rfl, fun _ _ => rfl, fun _ _ => rfl, fun _ _ => rfl,
    rfl, rfl, ?_, ?_, ?_, rfl⟩
  · intro i hi
    show (init s).memory (0x050 + i) = _
    rw [init_memory, if_pos ⟨by omega, by omega⟩]
    simp
  · intro a _ ha
    show (init s).memory a = 0
    rw [init_memory, if_neg (by omega)]
  · intro i _ _
    show (init s).memory (0x200 + i) = 0
    rw [init_memory, if_neg (by omega)]

/-- Instance of C5 on an image of 3585 bytes `AB` and on the empty image, from a state with
the pixel `gfx[2047]` lit, `memory[0x300] = 0x80` and `I = 0x300`: the load fails, the first
image byte is not at `0x200`, and the pixel, the memory byte and `I` are reset. -/
theorem load_failure_witness :
    bigFile.bytes.length = 3585 ∧ bigFile.bytes.getD 0 0 = 0xAB ∧
      drawStateLit.gfx 2047 = 1 ∧ drawStateLit.memory 0x300 = 0x80 ∧ drawStateLit.I = 0x300 ∧
      (loadApplication drawStateLit bigFile).1 = false ∧
      (loadApplication drawStateLit bigFile).2.memory 0x200 = 0 ∧
      (loadApplication drawStateLit bigFile).2.memory 0x300 = 0 ∧
      (loadApplication drawStateLit bigFile).2.gfx 2047 = 0 ∧
      (loadApplication drawStateLit bigFile).2.I = 0 ∧
      (loadApplication drawStateLit emptyFile).1 = false ∧
      (loadApplication drawStateLit emptyFile).2.gfx 2047 = 0 := by
  have hlen : bigFile.bytes.length = 3585 := by
    show (0xAB :: List.replicate 3584 0xAB).length = 3585
    simp only [List.length_cons, List.length_replicate]
  have h := load_failure drawStateLit bigFile (Or.inr (by rw [hlen]; decide))
  have h0 := load_failure drawStateLit emptyFile (Or.inl rfl)
  exact ⟨hlen, rfl, rfl, rfl, rfl, h.1,
    h.2.2.2.2.2.2.2.2.2.2.2.1 0x200 (by decide) (by decide),
    h.2.2.2.2.2.2.2.2.2.2.2.1 0x300 (by decide) (by decide),
    h.2.2.2.2.2.2.2.1 2047 (by decide), h.2.2.1, h0.1, h0.2.2.2.2.2.2.2.1 2047 (by decide)⟩

/-- C6. Evaluation of 8XY4 with `x = 0xF`: from `V[0xF] = 5`, `V[0] = 3` the word `8F04`
leaves `V[0xF] = 8`, the low byte of the sum, where the carry flag of `5 + 3` is 0. -/
theorem add_carry_xF_eval :
    fetch addAliasState = some 0x8F04 ∧ addAliasState.V 0xF = 5 ∧ addAliasState.V 0 = 3 ∧
      (emulateCycle addAliasState 0).map (fun t => t.V 0xF) = some 8 := by
  refine ⟨rfl, rfl, rfl, rfl⟩

/-- C7. Evaluation of 8XY5 with `y = 0xF`: from `V[0] = 5`, `V[0xF] = 3` the word `80F5`
leaves `V[0] = 4` and `V[0xF] = 1`: the flag is stored first and then subtracted, where
`5 - 3 = 2`. -/
theorem sub_yF_eval :
    fetch subAliasState = some 0x80F5 ∧ subAliasState.V 0 = 5 ∧ subAliasState.V 0xF = 3 ∧
      (emulateCycle subAliasState 0).map (fun t => (t.V 0, t.V 0xF)) = some (4, 1) := by
  refine ⟨rfl, rfl, rfl, rfl⟩

/-- C8. CALL/RET round trip: from a state with `sp < 16` whose word at `pc` is 2NNN, the
cycle stores `pc + 2` in `stack[sp]`, increments `sp`, sets `pc = nnn` and keeps the stack
entries below `sp`; if the word at `nnn` is 00EE the next cycle restores `sp` and sets
`pc` to the address after the CALL; `sp` stays within `0..16`. -/
theorem call_ret_round_trip (s : Chip8) (nnn rnd rnd' : Nat)
    (hsp : s.sp < 16) (hnnn : nnn < 4096) (hf : fetch s = some (0x2000 + nnn)) :
    ∃ s1, emulateCycle s rnd = some s1 ∧
      s1.stack s.sp = s.pc + 2 ∧ s1.sp = s.sp + 1 ∧ s1.pc = nnn ∧
      (∀ j, j < s.sp → s1.stack j = s.stack j) ∧ s1.sp ≤ 16 ∧
      (fetch s1 = some 0x00EE →
        ∃ s2, emulateCycle s1 rnd' = some s2 ∧ s2.sp = s.sp ∧ s2.pc = s.pc + 2 ∧
          s2.sp ≤ 16) := by
  have hpc := fetch_pc_lt hf
  have htop : (0x2000 + nnn) &&& 0xF000 = 0x2000 := by rw [and_F000]; omega
  have hn : nnnOf (0x2000 + nnn) = nnn := by rw [nnnOf_eq]; omega
  have hpc2 : (s.pc + 2) % 65536 = s.pc + 2 := by omega
  have hsp1 : (s.sp + 1) % 256 = s.sp + 1 := by omega
  have h1 : emulateCycle s rnd = some { s with
      opcode := 0x2000 + nnn
      pc := nnn
      stack := setCell s.stack s.sp (s.pc + 2)
      sp := s.sp + 1 } := by
    rw [emulateCycle_of_fetch rnd hf]
    simp [execute, htop, hn, op_2NNN, wr, hsp, hpc2, hsp1]
  refine ⟨_, h1, ?_, rfl, rfl, ?_, ?_, ?_⟩
  · simp [setCell]
  · intro j hj
    have : j ≠ s.sp := by omega
    simp [setCell, this]
  · show s.sp + 1 ≤ 16
    omega
  · intro hf2
    have hu : u8 (s.sp : Int) = s.sp := by
      unfold u8
      omega
    rw [emulateCycle_of_fetch rnd' hf2]
    have h0 : (0x00EE : Nat) &&& 0xF000 = 0 := by decide
    have hl : (0x00EE : Nat) &&& 0x0FF = 0xEE := by decide
    refine ⟨{ s with
      opcode := 0x00EE
      pc := s.pc + 2
      stack := setCell s.stack s.sp (s.pc + 2)
      sp := s.sp }, ?_, rfl, rfl, ?_⟩
    · simp [execute, h0, hl, op_00EE, rd, hu, hsp, setCell]
    · show s.sp ≤ 16
      omega

/-- Instance of C8 on the call/return scenario: CALL 0x206 at 0x200, RET at 0x206. -/
theorem call_ret_round_trip_witness :
    ∃ s1 s2, emulateCycle callState 0 = some s1 ∧ emulateCycle s1 0 = some s2 ∧
      s1.sp = 1 ∧ s1.stack 0 = 0x202 ∧ s1.pc = 0x206 ∧ s2.sp = 0 ∧ s2.pc = 0x202 := by
  obtain ⟨s1, h1, hst, hsp, hpc, _, _, hret⟩ :=
    call_ret_round_trip callState 0x206 0 0 (by decide) (by decide) rfl
  have e : _ = s1 := Option.some.inj h1
  have hf1 : fetch s1 = some 0x00EE := by rw [← e]; rfl
  obtain ⟨s2, h2, hsp2, hpc2, _⟩ := hret hf1
  exact ⟨s1, s2, h1, h2, hsp, hst, hpc, hsp2, hpc2⟩

/-- C9. FX55/FX65 round trip: with `I + x < 4096`, FX55 completes and writes
`memory[I + i] = V[i]` for `i ≤ x`, changing no other memory byte, no register and not
`I`; from every state `t` with the same `I` whose `memory[I..I+x]` still holds those
bytes, FX65 completes and sets `V[i]` to the stored value for `i ≤ x`, leaving the
registers above `x` and `I` unchanged. -/
theorem store_load_round_trip (s : Chip8) (x rnd rnd' : Nat) (hx : x < 16)
    (hI : s.I + x < 4096) (hf : fetch s = some (0xF055 + 256 * x)) :
    ∃ s1, emulateCycle s rnd = some s1 ∧
      (∀ i, i ≤ x → s1.memory (s.I + i) = s.V i) ∧
      (∀ a, (a < s.I ∨ s.I + x < a) → s1.memory a = s.memory a) ∧
      s1.V = s.V ∧ s1.I = s.I ∧
      ∀ t : Chip8, t.I = s.I → (∀ i, i ≤ x → t.memory (s.I + i) = s1.memory (s.I + i)) →
        fetch t = some (0xF065 + 256 * x) →
        ∃ t', emulateCycle t rnd' = some t' ∧ (∀ i, i ≤ x → t'.V i = s.V i) ∧
          (∀ j, x < j → t'.V j = t.V j) ∧ t'.I = t.I := by
  have htop : (0xF055 + 256 * x) &&& 0xF000 = 0xF000 := by rw [and_F000]; omega
  have hval : valOf (0xF055 + 256 * x) = 0x55 := by rw [valOf_eq]; omega
  have hX : regXOf (0xF055 + 256 * x) = x := by rw [regXOf_eq]; omega
  have htop' : (0xF065 + 256 * x) &&& 0xF000 = 0xF000 := by rw [and_F000]; omega
  have hval' : valOf (0xF065 + 256 * x) = 0x65 := by rw [valOf_eq]; omega
  have hX' : regXOf (0xF065 + 256 * x) = x := by rw [regXOf_eq]; omega
  obtain ⟨s1, h1, hs1, hm1⟩ := op_FX55_spec
    { s with opcode := 0xF055 + 256 * x, pc := (s.pc + 2) % 65536 } x hx hI
  have hstore : ∀ i, i ≤ x → s1.memory (s.I + i) = s.V i := by
    intro i hi
    have := hm1 (s.I + i)
    simp only [] at this
    rw [this, if_pos ⟨by omega, by omega⟩]
    simp
  refine ⟨s1, ?_, hstore, ?_, ?_, ?_, ?_⟩
  · rw [emulateCycle_of_fetch rnd hf]
    simp only [execute, htop, hval, hX]
    simpa using h1
  · intro a ha
    have := hm1 a
    simp only [] at this
    rw [this, if_neg (by omega)]
  · rw [hs1]
  · rw [hs1]
  · intro t htI hmem hft
    have hIt : t.I + x < 4096 := by omega
    obtain ⟨t', h2, ht', hv2⟩ := op_FX65_spec
      { t with opcode := 0xF065 + 256 * x, pc := (t.pc + 2) % 65536 } x hx hIt
    refine ⟨t', ?_, ?_, ?_, ?_⟩
    · rw [emulateCycle_of_fetch rnd' hft]
      simp only [execute, htop', hval', hX']
      simpa using h2
    · intro i hi
      have := hv2 i
      simp only [] at this
      rw [this, if_pos (by omega), htI, hmem i hi, hstore i hi]
    · intro j hj
      have := hv2 j
      simp only [] at this
      rw [this, if_neg (by omega)]
    · rw [ht']

/-- Instance of C9 with `x = 2`, `I = 0x300`: `F255` stores 7, 8, 9 and `F265`, run from a
state whose registers are all zero, brings them back. -/
theorem store_load_round_trip_witness :
    ∃ s1 t', emulateCycle storeState 0 = some s1 ∧ emulateCycle loadState 0 = some t' ∧
      s1.memory 0x300 = 7 ∧ s1.memory 0x301 = 8 ∧ s1.memory 0x302 = 9 ∧
      t'.V 0 = 7 ∧ t'.V 1 = 8 ∧ t'.V 2 = 9 := by
  obtain ⟨s1, h1, hst, _, _, _, hload⟩ :=
    store_load_round_trip storeState 2 0 0 (by decide) (by decide) rfl
  have hsame : ∀ i, i ≤ 2 → loadState.memory (storeState.I + i)
      = s1.memory (storeState.I + i) := by
    intro i hi
    rw [hst i hi]
    have : i = 0 ∨ i = 1 ∨ i = 2 := by omega
    rcases this with rfl | rfl | rfl <;> rfl
  obtain ⟨t', h2, hv, _, _⟩ := hload loadState rfl hsame rfl
  exact ⟨s1, t', h1, h2, hst 0 (by decide), hst 1 (by decide), hst 2 (by decide),
    hv 0 (by decide), hv 1 (by decide), hv 2 (by decide)⟩

/-- C10. FX33 BCD: with `V[x] ≤ 255` and `I ≤ 4093`, FX33 completes; each of
`memory[I]`, `memory[I+1]`, `memory[I+2]` is a decimal digit and
`memory[I] * 100 + memory[I+1] * 10 + memory[I+2] = V[x]`; no other memory byte, no
register and not `I` changes. -/
theorem bcd_digits (s : Chip8) (x rnd : Nat) (hx : x < 16) (hd : s.V x < 256)
    (hI : s.I ≤ 4093) (hf : fetch s = some (0xF033 + 256 * x)) :
    ∃ s', emulateCycle s rnd = some s' ∧
      s'.memory s.I < 10 ∧ s'.memory (s.I + 1) < 10 ∧ s'.memory (s.I + 2) < 10 ∧
      s'.memory s.I * 100 + s'.memory (s.I + 1) * 10 + s'.memory (s.I + 2) = s.V x ∧
      (∀ a, a ≠ s.I → a ≠ s.I + 1 → a ≠ s.I + 2 → s'.memory a = s.memory a) ∧
      s'.V = s.V ∧ s'.I = s.I := by
  have htop : (0xF033 + 256 * x) &&& 0xF000 = 0xF000 := by rw [and_F000]; omega
  have hval : valOf (0xF033 + 256 * x) = 0x33 := by rw [valOf_eq]; omega
  have hX : regXOf (0xF033 + 256 * x) = x := by rw [regXOf_eq]; omega
  have hI0 : s.I < 4096 := by omega
  have hI1 : s.I + 1 < 4096 := by omega
  have hI2 : s.I + 2 < 4096 := by omega
  have h1 : emulateCycle s rnd = some { s with
      opcode := 0xF033 + 256 * x
      pc := (s.pc + 2) % 65536
      memory := setCell (setCell (setCell s.memory s.I ((s.V x / 100) % 256)) (s.I + 1)
        (((s.V x / 10) % 10) % 256)) (s.I + 2) ((s.V x % 10) % 256) } := by
    rw [emulateCycle_of_fetch rnd hf]
    simp [execute, htop, hval, hX, op_FX33, rd, wr, hx, hI0, hI1, hI2]
  refine ⟨_, h1, ?_, ?_, ?_, ?_, ?_, rfl, rfl⟩
  · simp only [setCell]
    have a1 : s.I ≠ s.I + 2 := by omega
    have a2 : s.I ≠ s.I + 1 := by omega
    simp only [a1, a2, if_false, if_true]
    omega
  · simp only [setCell]
    have a1 : s.I + 1 ≠ s.I + 2 := by omega
    simp only [a1, if_false, if_true]
    omega
  · simp only [setCell, if_true]
    omega
  · simp only [setCell]
    have a1 : s.I ≠ s.I + 2 := by omega
    have a2 : s.I ≠ s.I + 1 := by omega
    have a3 : s.I + 1 ≠ s.I + 2 := by omega
    simp only [a1, a2, a3, if_false, if_true]
    omega
  · intro a h0 h1 h2
    simp [setCell, h0, h1, h2]

/-- Instance of C10 on the BCD scenario `V[5] = 234`: the digits stored are 2, 3, 4. -/
theorem bcd_digits_witness :
    ∃ s', emulateCycle bcdState 0 = some s' ∧ s'.memory 0x300 = 2 ∧
      s'.memory 0x301 = 3 ∧ s'.memory 0x302 = 4 := by
  obtain ⟨s', h, h0, h1, h2, hsum, _⟩ :=
    bcd_digits bcdState 5 0 (by decide) (by decide) (by decide) rfl
  have hv : bcdState.V 5 = 234 := rfl
  have hI : bcdState.I = 0x300 := rfl
  simp only [hv, hI, Nat.reduceAdd] at h0 h1 h2 hsum
  exact ⟨s', h, by omega, by omega, by omega⟩

/-- C11. Timer tick: one `updateTimers` call decrements each timer that is above zero and
leaves a zero timer at zero; afterwards `isBeeping` holds exactly when `sound_timer` was
above zero at entry; the call issues `stop` exactly when `isBeeping` and `sound_timer = 0`
held at entry, `start` exactly when `isBeeping` was false and `sound_timer > 0` at entry,
and no command otherwise. -/
theorem timer_tick (s : Chip8) (hd : s.delay_timer < 256) (hs : s.sound_timer < 256) :
    (updateTimers s).1.delay_timer = (if s.delay_timer > 0 then s.delay_timer - 1 else 0) ∧
      (updateTimers s).1.sound_timer
        = (if s.sound_timer > 0 then s.sound_timer - 1 else 0) ∧
      ((updateTimers s).1.isBeeping = true ↔ s.sound_timer > 0) ∧
      ((updateTimers s).2 = [AudioCmd.stop] ↔ (s.isBeeping = true ∧ s.sound_timer = 0)) ∧
      ((updateTimers s).2 = [AudioCmd.start] ↔ (s.isBeeping = false ∧ s.sound_timer > 0)) ∧
      (¬ (s.isBeeping = true ∧ s.sound_timer = 0) →
        ¬ (s.isBeeping = false ∧ s.sound_timer > 0) → (updateTimers s).2 = []) := by
  obtain ⟨h1, h2, h3⟩ := updateTimers_sound s hs
  refine ⟨?_, ?_, ?_, ?_, ?_, ?_⟩
  · rw [updateTimers_delay s hd]
    split <;> omega
  · rw [h1]
    split <;> omega
  · rw [h2]
    simp
  · rw [h3]
    by_cases c1 : s.isBeeping = true ∧ s.sound_timer = 0
    · simp [c1]
    · by_cases c2 : s.isBeeping = false ∧ s.sound_timer > 0
      · rw [if_neg c1, if_pos c2]
        simp [c1]
      · rw [if_neg c1, if_neg c2]
        simp [c1]
  · rw [h3]
    by_cases c1 : s.isBeeping = true ∧ s.sound_timer = 0
    · rw [if_pos c1]
      have : ¬ (s.isBeeping = false ∧ s.sound_timer > 0) := by
        intro h
        omega
      simp [this]
    · by_cases c2 : s.isBeeping = false ∧ s.sound_timer > 0
      · rw [if_neg c1, if_pos c2]
        simp [c2]
      · rw [if_neg c1, if_neg c2]
        simp [c2]
  · intro c1 c2
    rw [h3, if_neg c1, if_neg c2]

/-- Instance of C11: the first tick from `sound_timer = 2` issues `start`. -/
theorem timer_tick_witness :
    (updateTimers timerState).1.delay_timer = 0 ∧
      (updateTimers timerState).1.sound_timer = 1 ∧
      (updateTimers timerState).1.isBeeping = true ∧
      (updateTimers timerState).2 = [AudioCmd.start] := by
  obtain ⟨h1, h2, h3, _, h5, _⟩ := timer_tick timerState (by decide) (by decide)
  exact ⟨h1, h2, h3.2 (by decide), h5.2 ⟨rfl, by decide⟩⟩

/-- C12. Buzzer duration: from `isBeeping = false` and `sound_timer = n` with
`1 ≤ n ≤ 255`, when nothing between the ticks writes `sound_timer`, the first tick issues
`start`; after each of the ticks `1..n` `isBeeping` holds, `sound_timer` is `n - k` after
tick `k`, and no further command has been issued; tick `n + 1` issues `stop` and clears
`isBeeping`, so that the calls made over the `n + 1` ticks are exactly one `start` followed
by one `stop`. -/
theorem buzzer_duration (g : Nat → Chip8 → Chip8) (s : Chip8) (n : Nat) (hn1 : 1 ≤ n)
    (hn2 : n ≤ 255) (hb : s.isBeeping = false) (hs : s.sound_timer = n)
    (hg : ∀ k t, (g k t).sound_timer = t.sound_timer ∧ (g k t).isBeeping = t.isBeeping) :
    (updateTimers (g 0 s)).2 = [AudioCmd.start] ∧
      (∀ k, 1 ≤ k → k ≤ n →
        (ticks g k s).1.isBeeping = true ∧ (ticks g k s).1.sound_timer = n - k ∧
          (ticks g k s).2 = [AudioCmd.start]) ∧
      (updateTimers (g n (ticks g n s).1)).2 = [AudioCmd.stop] ∧
      (ticks g (n + 1) s).1.isBeeping = false ∧
      (ticks g (n + 1) s).2 = [AudioCmd.start, AudioCmd.stop] := by
  have hrun := ticks_running g s n hn2 hb hs hg
  obtain ⟨ib, ist, ilog⟩ := hrun n hn1 (Nat.le_refl n)
  have hgs := hg n (ticks g n s).1
  have hs1 : (g n (ticks g n s).1).sound_timer = 0 := by rw [hgs.1, ist]; omega
  have hb1 : (g n (ticks g n s).1).isBeeping = true := by rw [hgs.2, ib]
  obtain ⟨_, h2, h3⟩ := updateTimers_sound (g n (ticks g n s).1) (by omega)
  have hstop : (updateTimers (g n (ticks g n s).1)).2 = [AudioCmd.stop] := by
    rw [h3, if_pos ⟨hb1, hs1⟩]
  refine ⟨?_, hrun, hstop, ?_, ?_⟩
  · have h1 := (hrun 1 (Nat.le_refl 1) hn1).2.2
    have e : (ticks g 1 s).2 = [] ++ (updateTimers (g 0 s)).2 := rfl
    rw [e] at h1
    simpa using h1
  · show (updateTimers (g n (ticks g n s).1)).1.isBeeping = false
    rw [h2, hs1]
    rfl
  · show (ticks g n s).2 ++ (updateTimers (g n (ticks g n s).1)).2 = _
    rw [ilog, hstop]
    rfl

/-- Instance of C12 with `n = 2` and nothing running between the ticks: `start` on the
first tick, `stop` on the third. -/
theorem buzzer_duration_witness :
    (ticks (fun _ t => t) 1 timerState).2 = [AudioCmd.start] ∧
      (ticks (fun _ t => t) 2 timerState).1.sound_timer = 0 ∧
      (ticks (fun _ t => t) 2 timerState).1.isBeeping = true ∧
      (ticks (fun _ t => t) 3 timerState).1.isBeeping = false ∧
      (ticks (fun _ t => t) 3 timerState).2 = [AudioCmd.start, AudioCmd.stop] := by
  obtain ⟨_, hrun, _, hoff, hlog⟩ := buzzer_duration (fun _ t => t) timerState 2
    (by decide) (by decide) rfl rfl (fun _ _ => ⟨rfl, rfl⟩)
  exact ⟨(hrun 1 (by decide) (by decide)).2.2, (hrun 2 (by decide) (by decide)).2.1,
    (hrun 2 (by decide) (by decide)).1, hoff, hlog⟩

/-- C13. FX0A wait-key: the cycle completes; when some key of `keypad[0..15]` is pressed,
`V[x]` ends as the highest index of a pressed key, the other registers are unchanged and
`pc` has advanced by 2; when no key is pressed, `pc` is back at its old value and no
register, timer, memory byte or framebuffer cell has changed. -/
theorem wait_key (s : Chip8) (x rnd : Nat) (hx : x < 16)
    (hf : fetch s = some (0xF00A + 256 * x)) :
    ∃ s', emulateCycle s rnd = some s' ∧
      ((∃ j, j < 16 ∧ s.keypad j ≠ 0) →
        ∃ k, k < 16 ∧ s.keypad k ≠ 0 ∧ (∀ j, k < j → j < 16 → s.keypad j = 0) ∧
          s'.V x = k ∧ (∀ j, j ≠ x → s'.V j = s.V j) ∧ s'.pc = s.pc + 2) ∧
      ((∀ j, j < 16 → s.keypad j = 0) →
        s'.pc = s.pc ∧ s'.V = s.V ∧ s'.delay_timer = s.delay_timer ∧
          s'.sound_timer = s.sound_timer ∧ s'.memory = s.memory ∧ s'.gfx = s.gfx ∧
          s'.I = s.I ∧ s'.sp = s.sp ∧ s'.stack = s.stack) := by
  have hpc := fetch_pc_lt hf
  have htop : (0xF00A + 256 * x) &&& 0xF000 = 0xF000 := by rw [and_F000]; omega
  have hval : valOf (0xF00A + 256 * x) = 0x0A := by rw [valOf_eq]; omega
  have hX : regXOf (0xF00A + 256 * x) = x := by rw [regXOf_eq]; omega
  have hpc2 : (s.pc + 2) % 65536 = s.pc + 2 := by omega
  have hback : u16 (((s.pc + 2 : Nat) : Int) - 2) = s.pc := by
    unfold u16
    omega
  obtain ⟨⟨t, b⟩, hl, hfr, hF, hT⟩ := scanKeys_spec
    { s with opcode := 0xF00A + 256 * x, pc := (s.pc + 2) % 65536 } x hx
  simp only [] at hfr hF hT
  rw [emulateCycle_of_fetch rnd hf]
  cases b with
  | true =>
    obtain ⟨k, hk16, hkn, hkz, hV⟩ := hT rfl
    refine ⟨t, ?_, ?_, ?_⟩
    · simp [execute, htop, hval, hX, op_FX0A, hl]
    · intro _
      refine ⟨k, hk16, hkn, hkz, ?_, ?_, ?_⟩
      · rw [hV]
        simp [setCell]
      · intro j hj
        rw [hV]
        simp [setCell, hj]
      · rw [hfr]
        exact hpc2
    · intro hnone
      exact absurd (hnone k hk16) hkn
  | false =>
    obtain ⟨hz, hV⟩ := hF rfl
    refine ⟨{ t with pc := u16 ((t.pc : Int) - 2) }, ?_, ?_, ?_⟩
    · simp [execute, htop, hval, hX, op_FX0A, hl]
    · rintro ⟨j, hj, hjn⟩
      exact absurd (hz j hj) hjn
    · intro _
      have hpct : t.pc = s.pc + 2 := by rw [hfr]; exact hpc2
      refine ⟨?_, hV, ?_, ?_, ?_, ?_, ?_, ?_, ?_⟩
      · show u16 ((t.pc : Int) - 2) = s.pc
        rw [hpct]
        exact hback
      all_goals
        rw [hfr]

/-- Instance of C13 with keys 3 and 7 pressed: `V[0]` ends as 7 and `pc` advances. -/
theorem wait_key_witness :
    ∃ s', emulateCycle keyWaitState 0 = some s' ∧ s'.V 0 = 7 ∧ s'.pc = 0x202 := by
  obtain ⟨s', h, hp, _⟩ := wait_key keyWaitState 0 0 (by decide) rfl
  obtain ⟨k, hk, hkn, hkz, hV, _, hpc⟩ := hp ⟨7, by decide, by decide⟩
  have hk7 : k = 7 := by
    by_contra hne
    rcases Nat.lt_or_gt_of_ne hne with hlt | hgt
    · exact absurd (hkz 7 hlt (by decide)) (by decide)
    · have : keyWaitState.keypad k = 0 := by
        show (if k = 3 ∨ k = 7 then 1 else 0) = 0
        rw [if_neg (by omega)]
      exact hkn this
  subst hk7
  exact ⟨s', h, hV, hpc⟩

/-- C14. Evaluation of EX9E and EXA1 with `V[0] = 16`: the subscript `keypad[V[regX]]` is
`keypad[16]`, outside the 16 cells of the keypad, so neither cycle has a defined result;
the masked index `16 & 0xF` would be 0. -/
theorem key_skip_index_eval :
    fetch keyIndexState = some 0xE09E ∧ keyIndexState.V 0 = 16 ∧
      rd 16 keyIndexState.keypad (keyIndexState.V 0) = none ∧
      emulateCycle keyIndexState 0 = none ∧
      fetch keyIndexStateA1 = some 0xE0A1 ∧ keyIndexStateA1.V 0 = 16 ∧
      emulateCycle keyIndexStateA1 0 = none ∧
      (16 : Nat) &&& 0xF = 0 := by
  refine ⟨rfl, rfl, rfl, rfl, rfl, rfl, rfl, rfl⟩

/-- C15, as stated, fails: with `V[0] = 0x1A` the word `F029` sets `I = 0x50 + 26 * 5 = 0xD2`,
which is neither `0x50 + (0x1A & 0x0F) * 5 = 0x82` nor inside the font. -/
theorem unmasked_font_index :
    fetch fontIndexState = some 0xF029 ∧ fontIndexState.V 0 = 0x1A ∧
      (emulateCycle fontIndexState 0).map (fun t => t.I) = some 0xD2 ∧
      0x050 + (0x1A &&& 0x0F) * 5 = 0x82 ∧ ¬ (0xD2 ≤ 0x09B) := by
  refine ⟨rfl, rfl, rfl, rfl, by decide⟩

/-- C15, amended. FX29 font address: for every value of `V[x]` in `0..255`, after FX29
`I = 0x050 + V[x] * 5`, the register value being used unmasked; when `V[x] ≤ 15` this is
`0x050 + (V[x] & 0x0F) * 5`, the first byte of a font glyph: `0x050 ≤ I ≤ 0x09B` and
`I - 0x050` is divisible by 5. -/
theorem font_address (s : Chip8) (x rnd : Nat) (hx : x < 16) (hv : s.V x < 256)
    (hf : fetch s = some (0xF029 + 256 * x)) :
    ∃ s', emulateCycle s rnd = some s' ∧ s'.I = 0x050 + s.V x * 5 ∧
      (s.V x ≤ 15 → s'.I = 0x050 + (s.V x &&& 0x0F) * 5 ∧ 0x050 ≤ s'.I ∧ s'.I ≤ 0x09B ∧
        (s'.I - 0x050) % 5 = 0) := by
  have htop : (0xF029 + 256 * x) &&& 0xF000 = 0xF000 := by rw [and_F000]; omega
  have hval : valOf (0xF029 + 256 * x) = 0x29 := by rw [valOf_eq]; omega
  have hX : regXOf (0xF029 + 256 * x) = x := by rw [regXOf_eq]; omega
  have hI : (0x50 + s.V x * 5) % 65536 = 0x50 + s.V x * 5 := by omega
  refine ⟨{ s with
      opcode := 0xF029 + 256 * x
      pc := (s.pc + 2) % 65536
      I := 0x50 + s.V x * 5 }, ?_, rfl, ?_⟩
  · rw [emulateCycle_of_fetch rnd hf]
    simp only [execute, htop, hval, hX]
    simp [op_FX29, rd, hx, hI]
  · intro h15
    have hmask : s.V x &&& 0x0F = s.V x := by
      rw [and_000F]
      omega
    refine ⟨?_, ?_, ?_, ?_⟩
    · show 0x50 + s.V x * 5 = 0x050 + (s.V x &&& 0x0F) * 5
      rw [hmask]
    · show 0x050 ≤ 0x50 + s.V x * 5
      omega
    · show 0x50 + s.V x * 5 ≤ 0x09B
      omega
    · show (0x50 + s.V x * 5 - 0x050) % 5 = 0
      omega

/-- Instance of the amended C15 with `V[0] = 0xA`: `I` ends at `0x82`, glyph A. -/
theorem font_address_witness :
    ∃ s', emulateCycle fontGlyphState 0 = some s' ∧ s'.I = 0x82 := by
  obtain ⟨s', h, hI, _⟩ := font_address fontGlyphState 0 0 (by decide) (by decide) rfl
  exact ⟨s', h, hI⟩

/-- C16. Evaluation of two 0NNN words other than `00E0` and `00EE`: the inner switch tests
`opcode & 0x0FF`, so `01E0` clears the framebuffer and sets `drawFlag` like `00E0`, and
`0FEE` pops the stack like `00EE`. -/
theorem sys_low_byte_eval :
    fetch sysClsState = some 0x01E0 ∧ sysClsState.gfx 2047 = 1 ∧
      sysClsState.drawFlag = false ∧
      (emulateCycle sysClsState 0).map (fun t => (t.gfx 2047, t.drawFlag)) = some (0, true) ∧
      fetch sysRetState = some 0x0FEE ∧ sysRetState.sp = 1 ∧
      (emulateCycle sysRetState 0).map (fun t => (t.sp, t.pc)) = some (0, 0x300) := by
  refine ⟨rfl, rfl, rfl, rfl, rfl, rfl, rfl⟩

/-- C17. Evaluation of two words outside the opcode table: `5011` with `V[0] = V[1]` and
`9011` with `V[0] ≠ V[1]` take the skip of `5XY0` and `9XY0`, so `pc` advances by 4,
because `case 0x5000` and `case 0x9000` do not look at the low nibble. -/
theorem unknown_skip_eval :
    fetch skipEqState = some 0x5011 ∧ skipEqState.pc = 0x200 ∧
      (emulateCycle skipEqState 0).map (fun t => t.pc) = some 0x204 ∧
      fetch skipNeState = some 0x9011 ∧ skipNeState.pc = 0x200 ∧
      (emulateCycle skipNeState 0).map (fun t => t.pc) = some 0x204 := by
  refine ⟨rfl, rfl, rfl, rfl, rfl, rfl⟩

/-- C18. Shifts work on `V[x]` in place: for `x ≠ 0xF` and every `y`, 8XY6 leaves
`V[0xF] = V[x] & 1` and `V[x] = V[x] >> 1`, and 8XYE leaves `V[0xF] = (V[x] >> 7) & 1`
and `V[x] = (V[x] << 1) mod 256`, the right-hand sides read before the cycle.  The whole
result is given by an expression in which neither `y` nor `V[y]` occurs (apart from the
scratch field `opcode`, which holds the fetched word), and `V[y]` is unchanged when `y` is
neither `x` nor `0xF`. -/
theorem shift_in_place (s t : Chip8) (x y rnd : Nat) (hx : x < 16) (hy : y < 16)
    (hxF : x ≠ 0xF) (hs : s.V x < 256) (ht : t.V x < 256)
    (hf6 : fetch s = some (0x8006 + 256 * x + 16 * y))
    (hfE : fetch t = some (0x800E + 256 * x + 16 * y)) :
    ∃ s' t', emulateCycle s rnd = some s' ∧ emulateCycle t rnd = some t' ∧
      s' = { s with
        opcode := 0x8006 + 256 * x + 16 * y
        pc := s.pc + 2
        V := setCell (setCell s.V 0xF (s.V x &&& 1)) x (s.V x >>> 1) } ∧
      t' = { t with
        opcode := 0x800E + 256 * x + 16 * y
        pc := t.pc + 2
        V := setCell (setCell t.V 0xF ((t.V x >>> 7) &&& 1)) x ((t.V x <<< 1) % 256) } ∧
      s'.V 0xF = s.V x &&& 1 ∧ s'.V x = s.V x >>> 1 ∧
      t'.V 0xF = (t.V x >>> 7) &&& 1 ∧ t'.V x = (t.V x <<< 1) % 256 ∧
      (y ≠ x → y ≠ 0xF → s'.V y = s.V y ∧ t'.V y = t.V y) := by
  have hFx : x ≠ 15 := hxF
  have hxF' : (15 : Nat) ≠ x := fun h => hxF h.symm
  refine ⟨_, _, ?_, ?_, rfl, rfl, ?_, ?_, ?_, ?_, ?_⟩
  · have hpc := fetch_pc_lt hf6
    have htop : (0x8006 + 256 * x + 16 * y) &&& 0xF000 = 0x8000 := by rw [and_F000]; omega
    have hn : (0x8006 + 256 * x + 16 * y) &&& 0x000F = 6 := by rw [and_000F]; omega
    have hX : regXOf (0x8006 + 256 * x + 16 * y) = x := by rw [regXOf_eq]; omega
    have hpc2 : (s.pc + 2) % 65536 = s.pc + 2 := by omega
    have h1 : (s.V x % 2) % 256 = s.V x % 2 := by omega
    have h2 : (s.V x >>> 1) % 256 = s.V x >>> 1 := by
      rw [Nat.shiftRight_eq_div_pow]
      omega
    rw [emulateCycle_of_fetch rnd hf6]
    simp only [execute, htop, hX]
    simp [op_8XYN, hn, op_8XY6, rd, wr, hx, setCell, hFx, h1, h2, hpc2]
  · have hpc := fetch_pc_lt hfE
    have htop : (0x800E + 256 * x + 16 * y) &&& 0xF000 = 0x8000 := by rw [and_F000]; omega
    have hn : (0x800E + 256 * x + 16 * y) &&& 0x000F = 0xE := by rw [and_000F]; omega
    have hX : regXOf (0x800E + 256 * x + 16 * y) = x := by rw [regXOf_eq]; omega
    have hpc2 : (t.pc + 2) % 65536 = t.pc + 2 := by omega
    have hs7 : t.V x >>> 7 = t.V x / 128 := by rw [Nat.shiftRight_eq_div_pow]
    have h1 : (t.V x / 128) % 256 = (t.V x / 128) % 2 := by omega
    rw [emulateCycle_of_fetch rnd hfE]
    simp only [execute, htop, hX]
    simp [op_8XYN, hn, op_8XYE, rd, wr, hx, setCell, hFx, hs7, h1, hpc2]
  · simp only [setCell, if_neg hxF', if_true]
  · simp only [setCell, if_true]
  · simp only [setCell, if_neg hxF', if_true]
  · simp only [setCell, if_true]
  · intro hyx hyF
    constructor <;> simp [setCell, hyx, hyF]

/-- Instance of C18 with `V[1] = 0x81`, `x = 1`, `y = 2`: the right shift gives `0x40`
and the left shift `0x02`, both with flag 1. -/
theorem shift_in_place_witness :
    ∃ s' t', emulateCycle shrState 0 = some s' ∧ emulateCycle shlState 0 = some t' ∧
      s'.V 0xF = 1 ∧ s'.V 1 = 0x40 ∧ t'.V 0xF = 1 ∧ t'.V 1 = 0x02 := by
  obtain ⟨s', t', h1, h2, _, _, a, b, c, d, _⟩ := shift_in_place shrState shlState 1 2 0
    (by decide) (by decide) (by decide) (by decide) (by decide) rfl rfl
  exact ⟨s', t', h1, h2, a, b, c, d⟩

/-- C19. Double draw restores the framebuffer: from a state whose framebuffer cells are 0
or 1, with `I + n ≤ 4096`, a DXYN cycle followed by a second DXYN cycle with the same `I`,
the same sprite bytes and the same values of `V[x]` and `V[y]` leaves every framebuffer
cell equal to its value before the first draw. -/
theorem double_draw (s : Chip8) (x y n rnd rnd' : Nat) (hx : x < 16) (hy : y < 16)
    (hn : n < 16) (hgfx : ∀ i, i < 2048 → s.gfx i = 0 ∨ s.gfx i = 1) (hI : s.I + n ≤ 4096)
    (hf : fetch s = some (0xD000 + 256 * x + 16 * y + n)) :
    ∃ s1, emulateCycle s rnd = some s1 ∧
      ∀ u : Chip8, u.gfx = s1.gfx → u.I = s.I →
        (∀ r, r < n → u.memory (u.I + r) = s.memory (s.I + r)) →
        u.V x = s.V x → u.V y = s.V y →
        fetch u = some (0xD000 + 256 * x + 16 * y + n) →
        ∃ s2, emulateCycle u rnd' = some s2 ∧ ∀ i, i < 2048 → s2.gfx i = s.gfx i := by
  obtain ⟨s1, h1, hrest⟩ := draw_twice s x y n rnd rnd' hx hy hn hI hf
  refine ⟨s1, h1, ?_⟩
  intro u hug huI hum hux huy hfu
  obtain ⟨s2, h2, hg, hk, _, _⟩ := hrest u hug huI hum hux huy hfu
  refine ⟨s2, h2, ?_⟩
  intro i hi
  by_cases hH : spriteHit s x y n i
  · rw [hg i hH]
    rcases hgfx i hi with h0 | h0 <;> rw [h0] <;> rfl
  · exact hk i hH

/-- Instance of C19 on two successive `D011` words drawn onto a blank screen: the pixel at
`(63, 31)` is dark again after the second cycle. -/
theorem double_draw_witness :
    ∃ s1 s2, emulateCycle drawTwiceState 0 = some s1 ∧ emulateCycle s1 0 = some s2 ∧
      s2.gfx 2047 = 0 ∧ s2.gfx 0 = 0 := by
  obtain ⟨s1, h1, hrest⟩ := double_draw drawTwiceState 0 1 1 0 0 (by decide) (by decide)
    (by decide) (fun _ _ => Or.inl rfl) (by decide) rfl
  have key : ∀ {α : Type} (f : Chip8 → α) (v : α),
      (emulateCycle drawTwiceState 0).map f = some v → f s1 = v := by
    intro α f v h
    rw [h1] at h
    exact Option.some.inj h
  obtain ⟨s2, h2, hg⟩ := hrest s1 rfl (key (fun t => t.I) 0x300 rfl)
    (by
      intro r hr
      have hr0 : r = 0 := by omega
      subst hr0
      exact key (fun t => t.memory (t.I + 0)) 0x80 rfl)
    (key (fun t => t.V 0) 63 rfl) (key (fun t => t.V 1) 31 rfl)
    (key (fun t => fetch t) (some 0xD011) rfl)
  exact ⟨s1, s2, h1, h2, hg 2047 (by decide), hg 0 (by decide)⟩

/-- C20, as stated, fails: two successive `D011` cycles drawn onto the lit pixel `(63, 31)`
end with `V[0xF] = 0`: the first cycle erases the pixel (flag 1), the second lights it
again without a collision. -/
theorem second_draw_no_collision :
    fetch drawTwiceLit = some 0xD011 ∧
      (emulateCycle drawTwiceLit 0).map (fun t => (t.V 0xF, t.gfx 2047)) = some (1, 0) ∧
      ((emulateCycle drawTwiceLit 0).bind fetch) = some 0xD011 ∧
      ((emulateCycle drawTwiceLit 0).bind fun t => emulateCycle t 0).map
        (fun t => (t.V 0xF, t.gfx 2047)) = some (0, 1) := by
  refine ⟨rfl, rfl, rfl, rfl⟩

/-- C20, amended. Second draw and collision: from a state whose framebuffer cells are 0 or
1, with `I + n ≤ 4096`, when DXYN is executed twice with the same `I`, the same sprite
bytes and the same values of `V[x]` and `V[y]`, `V[0xF]` is 1 after the second draw when
some set sprite bit lands on a cell that was 0 before the first draw, and 0 otherwise. -/
theorem second_draw_flag (s : Chip8) (x y n rnd rnd' : Nat) (hx : x < 16) (hy : y < 16)
    (hn : n < 16) (hgfx : ∀ i, i < 2048 → s.gfx i = 0 ∨ s.gfx i = 1) (hI : s.I + n ≤ 4096)
    (hf : fetch s = some (0xD000 + 256 * x + 16 * y + n)) :
    ∃ s1, emulateCycle s rnd = some s1 ∧
      ∀ u : Chip8, u.gfx = s1.gfx → u.I = s.I →
        (∀ r, r < n → u.memory (u.I + r) = s.memory (s.I + r)) →
        u.V x = s.V x → u.V y = s.V y →
        fetch u = some (0xD000 + 256 * x + 16 * y + n) →
        ∃ s2, emulateCycle u rnd' = some s2 ∧
          ((∃ r c, r < n ∧ c < 8 ∧ s.memory (s.I + r) &&& (0x80 >>> c) ≠ 0 ∧
              s.gfx (((s.V y + r) % 32) * 64 + (s.V x + c) % 64) = 0) → s2.V 0xF = 1) ∧
          (¬ (∃ r c, r < n ∧ c < 8 ∧ s.memory (s.I + r) &&& (0x80 >>> c) ≠ 0 ∧
              s.gfx (((s.V y + r) % 32) * 64 + (s.V x + c) % 64) = 0) → s2.V 0xF = 0) := by
  obtain ⟨s1, h1, hrest⟩ := draw_twice s x y n rnd rnd' hx hy hn hI hf
  refine ⟨s1, h1, ?_⟩
  intro u hug huI hum hux huy hfu
  obtain ⟨s2, h2, _, _, hone, hzero⟩ := hrest u hug huI hum hux huy hfu
  refine ⟨s2, h2, ?_, ?_⟩
  · rintro ⟨r, c, hr, hc, hb, h0⟩
    apply hone
    refine ⟨_, ⟨r, c, hr, hc, hb, rfl⟩, ?_⟩
    show (s.gfx (((s.V y + r) % 32) * 64 + (s.V x + c) % 64) ^^^ 1) % 256 = 1
    rw [h0]
    rfl
  · intro hno
    apply hzero
    rintro ⟨j, hj, h1⟩
    apply hno
    have hlt := spriteHit_lt hj
    obtain ⟨r, c, hr, hc, hb, he⟩ := hj
    refine ⟨r, c, hr, hc, hb, ?_⟩
    have he' : j = ((s.V y + r) % 32) * 64 + (s.V x + c) % 64 := he
    rw [← he']
    rcases hgfx j hlt with g0 | g1
    · exact g0
    · rw [g1] at h1
      exact absurd h1 (by decide)

/-- Instance of the amended C20 on two successive `D011` words drawn onto a blank screen:
the second cycle reports the collision. -/
theorem second_draw_flag_witness :
    ∃ s1 s2, emulateCycle drawTwiceState 0 = some s1 ∧ emulateCycle s1 0 = some s2 ∧
      s2.V 0xF = 1 := by
  obtain ⟨s1, h1, hrest⟩ := second_draw_flag drawTwiceState 0 1 1 0 0 (by decide)
    (by decide) (by decide) (fun _ _ => Or.inl rfl) (by decide) rfl
  have key : ∀ {α : Type} (f : Chip8 → α) (v : α),
      (emulateCycle drawTwiceState 0).map f = some v → f s1 = v := by
    intro α f v h
    rw [h1] at h
    exact Option.some.inj h
  obtain ⟨s2, h2, hone, _⟩ := hrest s1 rfl (key (fun t => t.I) 0x300 rfl)
    (by
      intro r hr
      have hr0 : r = 0 := by omega
      subst hr0
      exact key (fun t => t.memory (t.I + 0)) 0x80 rfl)
    (key (fun t => t.V 0) 63 rfl) (key (fun t => t.V 1) 31 rfl)
    (key (fun t => fetch t) (some 0xD011) rfl)
  exact ⟨s1, s2, h1, h2,
    hone ⟨0, 0, by decide, by decide, by decide, by decide⟩⟩

/-- C21. Keypad mapping: `mapSDLKeyToChip8` sends the keys 1 2 3 4, Q W E R, A S D F,
Z X C V to 1 2 3 C, 4 5 6 D, 7 8 9 E, A 0 B F; on these sixteen keys it is one-to-one and
onto `0..15`; every other key code, Escape included, gives -1, and a key event for such a
key leaves the state, the keypad included, as it was. -/
theorem keypad_mapping :
    (hostKeys.map mapSDLKeyToChip8
        = [0x1, 0x2, 0x3, 0xC, 0x4, 0x5, 0x6, 0xD, 0x7, 0x8, 0x9, 0xE, 0xA, 0x0, 0xB, 0xF]) ∧
      (∀ a ∈ hostKeys, ∀ b ∈ hostKeys, mapSDLKeyToChip8 a = mapSDLKeyToChip8 b → a = b) ∧
      (∀ v : Int, 0 ≤ v → v ≤ 15 → ∃ k ∈ hostKeys, mapSDLKeyToChip8 k = v) ∧
      (∀ key, key ∉ hostKeys → mapSDLKeyToChip8 key = -1) ∧
      mapSDLKeyToChip8 SDLK_ESCAPE = -1 ∧
      (∀ s key down, key ∉ hostKeys → keyEvent s key down = some s) := by
  have hother : ∀ key, key ∉ hostKeys → mapSDLKeyToChip8 key = -1 := by
    intro key hk
    simp only [hostKeys, List.mem_cons, List.mem_singleton, not_or, List.mem_nil_iff,
      not_false_eq_true, and_true] at hk
    obtain ⟨h1, h2, h3, h4, h5, h6, h7, h8, h9, h10, h11, h12, h13, h14, h15, h16⟩ := hk
    simp only [mapSDLKeyToChip8, if_neg h1, if_neg h2, if_neg h3, if_neg h4, if_neg h5,
      if_neg h6, if_neg h7, if_neg h8, if_neg h9, if_neg h10, if_neg h11, if_neg h12,
      if_neg h13, if_neg h14, if_neg h15, if_neg h16]
  refine ⟨by decide, by decide, ?_, hother, by decide, ?_⟩
  · intro v h0 h15
    have hv : v = 0 ∨ v = 1 ∨ v = 2 ∨ v = 3 ∨ v = 4 ∨ v = 5 ∨ v = 6 ∨ v = 7 ∨ v = 8 ∨
        v = 9 ∨ v = 10 ∨ v = 11 ∨ v = 12 ∨ v = 13 ∨ v = 14 ∨ v = 15 := by omega
    rcases hv with h | h | h | h | h | h | h | h | h | h | h | h | h | h | h | h <;>
      subst h <;> decide
  · intro s key down hk
    simp [keyEvent, hother key hk]

/-- C22. Evaluation of the four cases the claim names: RET with `sp = 0` subscripts
`stack[255]`, CALL with `sp = 16` subscripts `stack[16]`, the fetch at `pc = 4095`
subscripts `memory[4096]`, and EX9E with `V[x] = 16` subscripts `keypad[16]`; each
subscript is outside its array, so none of the four cycles has a defined result. -/
theorem out_of_range_eval :
    fetch retEmptyState = some 0x00EE ∧ retEmptyState.sp = 0 ∧
      u8 ((retEmptyState.sp : Int) - 1) = 255 ∧ rd 16 retEmptyState.stack 255 = none ∧
      emulateCycle retEmptyState 0 = none ∧
      fetch callFullState = some 0x2300 ∧ callFullState.sp = 16 ∧
      wr 16 callFullState.stack callFullState.sp 0x202 = none ∧
      emulateCycle callFullState 0 = none ∧
      fetchEndState.pc = 4095 ∧ rd 4096 fetchEndState.memory (fetchEndState.pc + 1) = none ∧
      emulateCycle fetchEndState 0 = none ∧
      fetch keyIndexState = some 0xE09E ∧ keyIndexState.V 0 = 16 ∧
      emulateCycle keyIndexState 0 = none := by
  refine ⟨rfl, rfl, rfl, rfl, rfl, rfl, rfl, rfl, rfl, rfl, rfl, rfl, rfl, rfl, rfl⟩

/-- C23. Evaluation of FX33, FX55, FX65 and DXYN with `I = 4095`: the second byte each of
them accesses is `memory[I + 1] = memory[4096]`, outside the 4096 cells of memory, where
the claim has `memory[(I + 1) mod 4096] = memory[0]`; none of the four cycles has a defined
result. -/
theorem no_address_wrap_eval :
    fetch bcdEndState = some 0xF033 ∧ bcdEndState.I = 4095 ∧
      emulateCycle bcdEndState 0 = none ∧
      fetch storeEndState = some 0xF155 ∧ storeEndState.I = 4095 ∧
      emulateCycle storeEndState 0 = none ∧
      fetch loadEndState = some 0xF165 ∧ loadEndState.I = 4095 ∧
      emulateCycle loadEndState 0 = none ∧
      fetch drawEndState = some 0xD002 ∧ drawEndState.I = 4095 ∧
      emulateCycle drawEndState 0 = none ∧
      wr 4096 bcdEndState.memory (bcdEndState.I + 1) 2 = none ∧
      (bcdEndState.I + 1) % 4096 = 0 := by
  refine ⟨rfl, rfl, rfl, rfl, rfl, rfl, rfl, rfl, rfl, rfl, rfl, rfl, rfl, rfl⟩

/-- C24. Framebuffer invariant: `init` leaves every framebuffer cell at 0, every
instruction cycle that completes and every timer tick keep the cells in `{0, 1}`, and so
every cell of the 2048 is 0 or 1 in each state reachable from a reset or a load. -/
theorem framebuffer_binary :
    (∀ s, GfxBinary (init s)) ∧
      (∀ s t rnd, GfxBinary s → emulateCycle s rnd = some t → GfxBinary t) ∧
      (∀ s, GfxBinary s → GfxBinary (updateTimers s).1) ∧
      (∀ s t sym down, GfxBinary s → keyEvent s sym down = some t → GfxBinary t) ∧
      (∀ s, Reachable s → ∀ i, i < 2048 → s.gfx i = 0 ∨ s.gfx i = 1) := by
  have hinit : ∀ s, GfxBinary (init s) := fun s i _ => Or.inl rfl
  have htick : ∀ s, GfxBinary s → GfxBinary (updateTimers s).1 := by
    intro s hb i hi
    rw [updateTimers_gfx]
    exact hb i hi
  refine ⟨hinit, fun s t rnd hb hc => emulateCycle_gfxBinary hb hc, htick, ?_, ?_⟩
  · intro s t sym down hb h i hi
    rw [keyEvent_gfx h]
    exact hb i hi
  intro s hr
  induction hr with
  | reset s => exact hinit s
  | load s file =>
    intro i _
    left
    simp only [loadApplication]
    split_ifs <;> rfl
  | cycle rnd _ h ih => exact emulateCycle_gfxBinary ih h
  | tick _ ih => exact htick _ ih
  | key sym down _ h ih =>
    intro i hi
    rw [keyEvent_gfx h]
    exact ih i hi
  | shown _ ih => exact ih

/-- C25. Evaluation of CALL with a full stack: the word `2300`, which is neither FX33 nor
FX55, with `sp = 16` makes the cycle write `stack[16]`, outside the 16 entries of the
stack, so the cycle has no defined result and no final memory to compare with the initial
one; the same holds for every CALL with `sp ≥ 16`. -/
theorem call_overflow_eval :
    fetch callFullState = some 0x2300 ∧ 0x2300 &&& 0xF000 = 0x2000 ∧
      ¬ (0x2300 &&& 0xF000 = 0xF000 ∧ (valOf 0x2300 = 0x33 ∨ valOf 0x2300 = 0x55)) ∧
      callFullState.sp = 16 ∧
      wr 16 callFullState.stack callFullState.sp (callFullState.pc + 2) = none ∧
      emulateCycle callFullState 0 = none ∧
      (∀ s op rnd, fetch s = some op → op &&& 0xF000 = 0x2000 → 16 ≤ s.sp →
        emulateCycle s rnd = none) := by
  refine ⟨rfl, rfl, by decide, rfl, rfl, rfl, ?_⟩
  intro s op rnd hf hop hsp
  rw [emulateCycle_of_fetch rnd hf]
  have hw : ∀ v, wr 16 s.stack s.sp v = none := by
    intro v
    unfold wr
    rw [if_neg (by omega)]
  simp [execute, hop, op_2NNN, hw]

end Chip8
